import Mathlib

/-!
# Verification of the `next-llm-ready` core against its specification

This file shallowly embeds the core algorithms of the `next-llm-ready`
TypeScript package (HTML→Markdown conversion, heading extraction, TOC tree
building, text metrics, markdown assembly, HTTP-style handlers) as
executable Lean definitions, and proves or refutes the frozen claims about
them.

Strings are modelled as Lean `String`/`List Char`; the specific JavaScript
regular expressions used by the source are compiled by hand into
deterministic scanners whose search order follows the backtracking order of
the JS regex engine (greedy/lazy quantifier semantics are spelled out in
the doc comment of each scanner).
-/

namespace NextLlmReady

/-! ## Character classes

JS `\s` inside the source's regexes: we model the ASCII whitespace
characters plus U+00A0 (no-break space).  JS `\w` is `[A-Za-z0-9_]`. -/

/-- Model of the JS `\s` character class (ASCII whitespace plus NBSP);
written via `Char.toNat` (the Unicode scalar value) so that `omega` can
reason about it: 32 is space, 9-13 are tab/LF/VT/FF/CR, 160 is NBSP. -/
def isJsSpace (c : Char) : Bool :=
  c.toNat = 32 || c.toNat = 9 || c.toNat = 10 || c.toNat = 11 ||
  c.toNat = 12 || c.toNat = 13 || c.toNat = 160

/-- Model of the JS `\w` character class `[A-Za-z0-9_]` (scalar ranges
97-122, 65-90, 48-57, and 95). -/
def isWordChar (c : Char) : Bool :=
  (97 ≤ c.toNat && c.toNat ≤ 122) || (65 ≤ c.toNat && c.toNat ≤ 90) ||
  (48 ≤ c.toNat && c.toNat ≤ 57) || c.toNat = 95

/-- Decimal digit test (`[0-9]`, scalars 48-57). -/
def isDigitChar (c : Char) : Bool :=
  48 ≤ c.toNat && c.toNat ≤ 57

/-! ## Text metrics (`src/utils/html-to-markdown.ts`, `countWords` /
`calculateReadingTime`) -/

/-- Accumulating splitter: `tokensAux p cs acc` splits `cs` into the maximal
runs of characters for which `p` is false, discarding separator
characters; `acc` holds the (reversed) run currently being read.  This is
the standard fold formulation of `String.split(/\s+/)` followed by
filtering out the empty tokens. -/
def tokensAux (p : Char → Bool) : List Char → List Char → List (List Char)
  | [], acc => if acc.isEmpty then [] else [acc.reverse]
  | c :: cs, acc =>
    if p c then
      if acc.isEmpty then tokensAux p cs [] else acc.reverse :: tokensAux p cs []
    else tokensAux p cs (c :: acc)

/-- The list of maximal `p`-free runs of `cs` (separators discarded). -/
def tokens (p : Char → Bool) (cs : List Char) : List (List Char) :=
  tokensAux p cs []

/-- `countWords` from `src/utils/html-to-markdown.ts`:
`text.replace(/[^\w\s]/g, '').split(/\s+/).filter(w => w.length > 0).length`.
We first drop every character that is neither a word character nor
whitespace (the `replace`), then count the maximal non-whitespace runs
(the `split`/`filter`/`length`). -/
def countWords (text : String) : Nat :=
  (tokens isJsSpace
    (text.toList.filter (fun c => isWordChar c || isJsSpace c))).length

/-- `calculateReadingTime` from `src/utils/html-to-markdown.ts`:
`Math.ceil(countWords(text) / wordsPerMinute)`, default 200 words per
minute.  For positive `wordsPerMinute` the JS expression is the exact
rational ceiling, which over `Nat` is `(w + wpm - 1) / wpm`. -/
def calculateReadingTime (text : String) (wordsPerMinute : Nat := 200) : Nat :=
  (countWords text + wordsPerMinute - 1) / wordsPerMinute

/-- Auxiliary: `(w + b - 1) / b` over `Nat` is the rational ceiling of
`w / b` for positive `b`. -/
theorem natCeilDiv_eq_ceil (w b : Nat) (hb : 0 < b) :
    (((w + b - 1) / b : Nat) : ℤ) = ⌈(w : ℚ) / (b : ℚ)⌉ := by
  have hmod := Nat.div_add_mod (w + b - 1) b
  set n := (w + b - 1) / b with hn
  set r := (w + b - 1) % b with hr
  have hrlt : r < b := Nat.mod_lt _ hb
  have h1 : w ≤ b * n := by omega
  have h2 : b * n < w + b := by omega
  have hbq : (0 : ℚ) < (b : ℚ) := by exact_mod_cast hb
  symm
  rw [Int.ceil_eq_iff]
  constructor
  · rw [lt_div_iff₀ hbq]
    push_cast
    have h2q : (b : ℚ) * n < w + b := by exact_mod_cast h2
    nlinarith
  · rw [div_le_iff₀ hbq]
    push_cast
    have h1q : (w : ℚ) ≤ b * n := by exact_mod_cast h1
    nlinarith

/-- **C3.** For every text string and every positive `wordsPerMinute`
(default 200), `calculateReadingTime` returns the ceiling of
`countWords text / wordsPerMinute` — a non-negative integer by virtue of
living in `Nat` — and in particular the empty string yields `0` and any
text of exactly 400 words at 200 words per minute yields `2`. -/
theorem calculateReadingTime_is_ceiling :
    (∀ (text : String) (wpm : Nat), 0 < wpm →
      ((calculateReadingTime text wpm : Nat) : ℤ) =
        ⌈(countWords text : ℚ) / (wpm : ℚ)⌉) ∧
    calculateReadingTime "" 200 = 0 ∧
    (∀ text : String, countWords text = 400 →
      calculateReadingTime text 200 = 2) := by
  refine ⟨fun text wpm hw => natCeilDiv_eq_ceil _ _ hw, by decide, fun text h => ?_⟩
  unfold calculateReadingTime
  rw [h]

/-- A 400-word text used to witness the `calculateReadingTime` claim. -/
def words400 : String := String.intercalate " " (List.replicate 400 "a")

set_option maxRecDepth 10000 in
/-- Witness for **C3**: the theorem applied at concrete inputs, with its
hypotheses (`0 < wpm` and a text of exactly 400 words) discharged by
computation. -/
theorem calculateReadingTime_is_ceiling_witness :
    ((calculateReadingTime "Hello, world!" 200 : Nat) : ℤ) =
      ⌈(countWords "Hello, world!" : ℚ) / ((200 : Nat) : ℚ)⌉ ∧
    calculateReadingTime words400 200 = 2 :=
  ⟨calculateReadingTime_is_ceiling.1 "Hello, world!" 200 (by decide),
   calculateReadingTime_is_ceiling.2.2 words400 (by decide)⟩

/-! ## Slug generation

Two slugify pipelines appear in the source:
* `generateSlug` (`src/server/generate-markdown.ts`): lowercase, strip
  characters outside `[a-z0-9\s-]`, replace whitespace runs by `-`,
  collapse `-` runs, trim leading/trailing `-`, with a `heading-{index}`
  fallback for the empty slug;
* `generateHeadingId` (`src/hooks/use-toc.ts`): the same followed by
  `.substring(0, 50)` before the fallback test.
-/

/-- `replaceRuns p r inRun cs` models the JS global replacement of every
maximal run of characters satisfying `p` by the single character `r`
(`String.replace(/X+/g, r)`).  The Boolean records whether the scanner is
currently inside a run whose replacement has already been emitted. -/
def replaceRuns (p : Char → Bool) (r : Char) : Bool → List Char → List Char
  | _, [] => []
  | inRun, c :: cs =>
    if p c then
      if inRun then replaceRuns p r true cs
      else r :: replaceRuns p r true cs
    else c :: replaceRuns p r false cs

/-- `trimEdge p cs` models `String.replace(/^X+|X+$/g, '')`: remove the
maximal leading and trailing runs of characters satisfying `p`. -/
def trimEdge (p : Char → Bool) (cs : List Char) : List Char :=
  ((cs.dropWhile p).reverse.dropWhile p).reverse

/-- The character class kept by the slugify filter `[a-z0-9\s-]`
(applied after lowercasing). -/
def isSlugKept (c : Char) : Bool :=
  (97 ≤ c.toNat && c.toNat ≤ 122) || isDigitChar c || isJsSpace c || c.toNat = 45

/-- Hyphen test (scalar 45). -/
def isHyphen (c : Char) : Bool :=
  c.toNat = 45

/-- The shared slugify pipeline of `generateSlug` / `generateHeadingId`
minus truncation and fallback: lowercase, filter to `[a-z0-9\s-]`,
whitespace runs to `-`, collapse `-` runs, trim edge `-`.  (JS
`toLowerCase` is modelled by `Char.toLower`, which agrees with it on
ASCII; non-ASCII divergences are removed by the filter step either way.) -/
def slugChars (text : String) : List Char :=
  trimEdge isHyphen
    (replaceRuns isHyphen '-' false
      (replaceRuns isJsSpace '-' false
        ((text.toList.map Char.toLower).filter isSlugKept)))

/-- The untruncated slug transformation used by the Markdown-path id
generator `generateSlug` (`src/server/generate-markdown.ts`, before its
empty-slug fallback). -/
def slugifyMd (text : String) : String :=
  String.mk (slugChars text)

/-- The 50-character-truncating slug transformation used by the TOC-hook
id generator `generateHeadingId` (`src/hooks/use-toc.ts`, the
`.substring(0, 50)` happens after trimming and before the fallback). -/
def slugifyTOC (text : String) : String :=
  String.mk ((slugChars text).take 50)

/-- `generateSlug` from `src/server/generate-markdown.ts` (slug with
`heading-{index}` fallback when the slug is empty). -/
def generateSlug (text : String) (index : Nat) : String :=
  let slug := slugifyMd text
  if slug = "" then "heading-" ++ Nat.repr index else slug

/-- `generateHeadingId` from `src/hooks/use-toc.ts` (truncated slug with
`heading-{index}` fallback when the truncated slug is empty). -/
def generateHeadingId (text : String) (index : Nat) : String :=
  let slug := slugifyTOC text
  if slug = "" then "heading-" ++ Nat.repr index else slug

/-- Characters that can appear in a finished slug: `[a-z0-9-]`. -/
def isSlugOut (c : Char) : Bool :=
  (97 ≤ c.toNat && c.toNat ≤ 122) || isDigitChar c || c.toNat = 45

/-- No two adjacent characters of the list both satisfy `p`. -/
def NoRun (p : Char → Bool) (l : List Char) : Prop :=
  l.Chain' (fun a b => ¬(p a = true ∧ p b = true))

/-- Slug-output characters are fixed by `Char.toLower`. -/
theorem toLower_eq_self_of_isSlugOut {c : Char} (h : isSlugOut c = true) :
    c.toLower = c := by
  simp only [isSlugOut, isDigitChar, Bool.or_eq_true, Bool.and_eq_true,
    decide_eq_true_eq] at h
  simp only [Char.toLower]
  rw [if_neg]
  omega

/-- `replaceRuns` is the identity on lists without `p`-characters. -/
theorem replaceRuns_eq_self (p : Char → Bool) (r : Char) :
    ∀ (l : List Char), (∀ c ∈ l, p c = false) → ∀ b, replaceRuns p r b l = l
  | [], _, _ => rfl
  | c :: cs, h, b => by
    have hc : p c = false := h c (List.mem_cons_self c cs)
    have ih := replaceRuns_eq_self p r cs
      (fun d hd => h d (List.mem_cons_of_mem c hd)) false
    simp [replaceRuns, hc, ih]

/-- Every character emitted by `replaceRuns` is either an input character
that does not satisfy `p`, or the replacement character `r`. -/
theorem replaceRuns_mem {p : Char → Bool} {r : Char} :
    ∀ {l : List Char} {b c}, c ∈ replaceRuns p r b l →
      (c ∈ l ∧ p c = false) ∨ c = r
  | [], b, c, h => by simp [replaceRuns] at h
  | d :: cs, b, c, h => by
    by_cases hd : p d = true
    · rcases b with _ | _
      · simp only [replaceRuns, hd, if_true, if_false, Bool.false_eq_true] at h
        rcases List.mem_cons.1 h with h1 | h1
        · exact Or.inr h1
        · rcases replaceRuns_mem h1 with ⟨h2, h3⟩ | h2
          · exact Or.inl ⟨List.mem_cons_of_mem d h2, h3⟩
          · exact Or.inr h2
      · simp only [replaceRuns, hd, if_true] at h
        rcases replaceRuns_mem h with ⟨h2, h3⟩ | h2
        · exact Or.inl ⟨List.mem_cons_of_mem d h2, h3⟩
        · exact Or.inr h2
    · have hd' : p d = false := by simpa using hd
      simp only [replaceRuns, hd', Bool.false_eq_true, if_false] at h
      rcases List.mem_cons.1 h with h1 | h1
      · subst h1
        exact Or.inl ⟨List.mem_cons_self c cs, hd'⟩
      · rcases replaceRuns_mem h1 with ⟨h2, h3⟩ | h2
        · exact Or.inl ⟨List.mem_cons_of_mem d h2, h3⟩
        · exact Or.inr h2

/-- After a run replacement has been emitted (`inRun = true`), the next
emitted character cannot satisfy `p`. -/
theorem replaceRuns_head_not {p : Char → Bool} {r : Char} :
    ∀ {l : List Char} {c}, (replaceRuns p r true l).head? = some c →
      p c = false
  | [], c, h => by simp [replaceRuns] at h
  | d :: cs, c, h => by
    by_cases hd : p d = true
    · simp only [replaceRuns, hd, if_true] at h
      exact replaceRuns_head_not h
    · have hd' : p d = false := by simpa using hd
      simp only [replaceRuns, hd', Bool.false_eq_true, if_false,
        List.head?_cons, Option.some.injEq] at h
      subst h
      exact hd'

/-- The output of `replaceRuns` never contains two adjacent
`p`-characters (provided the replacement `r` itself satisfies `p`,
as in the hyphen-collapsing pass). -/
theorem replaceRuns_noRun {p : Char → Bool} {r : Char} :
    ∀ (l : List Char) (b), NoRun p (replaceRuns p r b l)
  | [], _ => List.chain'_nil
  | d :: cs, b => by
    by_cases hd : p d = true
    · rcases b with _ | _
      · simp only [replaceRuns, hd, if_true, Bool.false_eq_true, if_false]
        rw [NoRun, List.chain'_cons']
        refine ⟨fun y hy => ?_, replaceRuns_noRun cs true⟩
        have := replaceRuns_head_not hy
        simp [this]
      · simp only [replaceRuns, hd, if_true]
        exact replaceRuns_noRun cs true
    · have hd' : p d = false := by simpa using hd
      simp only [replaceRuns, hd', Bool.false_eq_true, if_false]
      rw [NoRun, List.chain'_cons']
      exact ⟨fun y _ => by simp [hd'], replaceRuns_noRun cs false⟩

/-- On a list with no adjacent `p`-runs (and, when starting inside a run,
no leading `p`-character), `replaceRuns` is the identity — provided every
`p`-character is the replacement character itself, as in the
hyphen-collapsing pass. -/
theorem replaceRuns_eq_self_of_noRun {p : Char → Bool} {r : Char}
    (hc : ∀ c, p c = true → c = r) :
    ∀ (l : List Char) (b), NoRun p l →
      (b = true → ∀ c, l.head? = some c → p c = false) →
      replaceRuns p r b l = l
  | [], _, _, _ => rfl
  | d :: cs, b, hchain, hb => by
    rw [NoRun, List.chain'_cons'] at hchain
    by_cases hd : p d = true
    · have hbf : b = false := by
        cases b with
        | false => rfl
        | true => exact absurd hd (by simp [hb rfl d rfl])
      subst hbf
      have hdr : d = r := hc d hd
      have hcs : replaceRuns p r true cs = cs := by
        cases cs with
        | nil => rfl
        | cons e es =>
          have he : p e = false := by
            have := hchain.1 e rfl
            simp only [hd, true_and] at this
            simpa using this
          simp only [replaceRuns, he, Bool.false_eq_true, if_false]
          refine congrArg (e :: ·) ?_
          exact replaceRuns_eq_self_of_noRun hc es false hchain.2.tail (by simp)
      subst hdr
      show replaceRuns p d false (d :: cs) = d :: cs
      simp [replaceRuns, hd, hcs]
    · have hd' : p d = false := by simpa using hd
      simp only [replaceRuns, hd', Bool.false_eq_true, if_false]
      refine congrArg (d :: ·) ?_
      exact replaceRuns_eq_self_of_noRun hc cs false hchain.2 (by simp)

/-- The head of `dropWhile p` never satisfies `p`. -/
theorem head_dropWhile_not (p : Char → Bool) :
    ∀ (l : List Char) (c : Char), (l.dropWhile p).head? = some c → p c = false
  | [], c, h => by simp at h
  | d :: cs, c, h => by
    by_cases hd : p d = true
    · rw [List.dropWhile_cons_of_pos hd] at h
      exact head_dropWhile_not p cs c h
    · have hd' : p d = false := by simpa using hd
      rw [List.dropWhile_cons_of_neg (by simp [hd'])] at h
      simp only [List.head?_cons, Option.some.injEq] at h
      subst h
      exact hd'

/-- `trimEdge p l` is an infix of `l`. -/
theorem trimEdge_within (p : Char → Bool) (l : List Char) :
    trimEdge p l <:+: l := by
  unfold trimEdge
  have h1 : (l.dropWhile p) <:+ l := List.dropWhile_suffix p
  have h2 : ((l.dropWhile p).reverse.dropWhile p) <:+ (l.dropWhile p).reverse :=
    List.dropWhile_suffix p
  have h3 : ((l.dropWhile p).reverse.dropWhile p).reverse <+: (l.dropWhile p) := by
    rcases h2 with ⟨t, ht⟩
    refine ⟨t.reverse, ?_⟩
    have := congrArg List.reverse ht
    simpa using this
  exact h3.isInfix.trans h1.isInfix

/-- When `dropWhile` leaves a nonempty list, the last element is
untouched. -/
theorem getLast_dropWhile_ne_nil (p : Char → Bool) (l : List Char)
    (h : l.dropWhile p ≠ []) : (l.dropWhile p).getLast? = l.getLast? := by
  obtain ⟨t, ht⟩ := List.dropWhile_suffix (l := l) p
  conv_rhs => rw [← ht]
  rw [List.getLast?_append]
  rcases hg : (l.dropWhile p).getLast? with _ | e
  · exact absurd (List.getLast?_eq_none_iff.1 hg) h
  · rfl

/-- The first character surviving `trimEdge` does not satisfy `p`. -/
theorem trimEdge_head_not (p : Char → Bool) (l : List Char) (c : Char)
    (h : (trimEdge p l).head? = some c) : p c = false := by
  unfold trimEdge at h
  rw [List.head?_reverse] at h
  have hne : (l.dropWhile p).reverse.dropWhile p ≠ [] := by
    intro he
    rw [he] at h
    simp at h
  rw [getLast_dropWhile_ne_nil p _ hne, List.getLast?_reverse] at h
  exact head_dropWhile_not p _ c h

/-- The last character surviving `trimEdge` does not satisfy `p`. -/
theorem trimEdge_getLast_not (p : Char → Bool) (l : List Char) (c : Char)
    (h : (trimEdge p l).getLast? = some c) : p c = false := by
  unfold trimEdge at h
  rw [List.getLast?_reverse] at h
  exact head_dropWhile_not p _ c h

/-- `trimEdge` is the identity when neither edge satisfies `p`. -/
theorem trimEdge_eq_self (p : Char → Bool) (l : List Char)
    (hhead : ∀ c, l.head? = some c → p c = false)
    (hlast : ∀ c, l.getLast? = some c → p c = false) :
    trimEdge p l = l := by
  unfold trimEdge
  have hds : ∀ (m : List Char), (∀ c, m.head? = some c → p c = false) →
      m.dropWhile p = m := by
    intro m hm
    cases m with
    | nil => rfl
    | cons c cs =>
      have := hm c rfl
      rw [List.dropWhile_cons_of_neg (by simp [this])]
  rw [hds l hhead]
  have h2 : l.reverse.dropWhile p = l.reverse := by
    refine hds l.reverse (fun c hc => ?_)
    rw [List.head?_reverse] at hc
    exact hlast c hc
  rw [h2, List.reverse_reverse]

/-- Hyphen characters are the hyphen. -/
theorem eq_hyphen_of_isHyphen {c : Char} (h : isHyphen c = true) : c = '-' := by
  simp only [isHyphen, decide_eq_true_eq] at h
  have := Char.ofNat_toNat c
  rw [h] at this
  exact this.symm

/-- Slug-output characters survive the slugify filter. -/
theorem kept_of_isSlugOut {c : Char} (h : isSlugOut c = true) :
    isSlugKept c = true := by
  simp only [isSlugOut, isSlugKept, isDigitChar, isJsSpace, Bool.or_eq_true,
    Bool.and_eq_true, decide_eq_true_eq] at h ⊢
  omega

/-- Slug-output characters are not whitespace. -/
theorem not_space_of_isSlugOut {c : Char} (h : isSlugOut c = true) :
    isJsSpace c = false := by
  simp only [isSlugOut, isJsSpace, isDigitChar, Bool.or_eq_true,
    Bool.and_eq_true, decide_eq_true_eq] at h
  simp only [isJsSpace, Bool.or_eq_false_iff, decide_eq_false_iff_not]
  omega

/-- Lowercasing fixes lists of slug-output characters. -/
theorem map_toLower_eq_self :
    ∀ {l : List Char}, (∀ c ∈ l, isSlugOut c = true) →
      l.map Char.toLower = l
  | [], _ => rfl
  | c :: cs, h => by
    rw [List.map_cons, toLower_eq_self_of_isSlugOut (h c (by simp)),
      map_toLower_eq_self (fun d hd => h d (List.mem_cons_of_mem c hd))]

/-- Every character of a computed slug lies in `[a-z0-9-]`. -/
theorem slugChars_out (text : String) :
    ∀ c ∈ slugChars text, isSlugOut c = true := by
  intro c hc
  unfold slugChars at hc
  have hc1 := (trimEdge_within isHyphen _).subset hc
  rcases replaceRuns_mem hc1 with ⟨hc2, _⟩ | hc2
  · rcases replaceRuns_mem hc2 with ⟨hc3, hsp⟩ | hc3
    · have hk := (List.mem_filter.1 hc3).2
      simp only [isSlugKept, isSlugOut, isDigitChar, isJsSpace, Bool.or_eq_true,
        Bool.and_eq_true, decide_eq_true_eq] at hk ⊢
      simp only [isJsSpace, Bool.or_eq_false_iff, decide_eq_false_iff_not] at hsp
      omega
    · subst hc3
      decide
  · subst hc2
    decide

/-- A computed slug has no two adjacent hyphens. -/
theorem slugChars_noRun (text : String) : NoRun isHyphen (slugChars text) :=
  List.Chain'.infix (replaceRuns_noRun _ _) (trimEdge_within _ _)

/-- A computed slug does not start with a hyphen. -/
theorem slugChars_head_not (text : String) :
    ∀ c, (slugChars text).head? = some c → isHyphen c = false :=
  fun c h => trimEdge_head_not _ _ c h

/-- A computed slug does not end with a hyphen. -/
theorem slugChars_getLast_not (text : String) :
    ∀ c, (slugChars text).getLast? = some c → isHyphen c = false :=
  fun c h => trimEdge_getLast_not _ _ c h

/-- The slugify pipeline is the identity on lists already in slug normal
form: characters in `[a-z0-9-]`, no adjacent hyphens, no edge hyphen. -/
theorem slugChars_eq_self (l : List Char)
    (hout : ∀ c ∈ l, isSlugOut c = true)
    (hchain : NoRun isHyphen l)
    (hhead : ∀ c, l.head? = some c → isHyphen c = false)
    (hlast : ∀ c, l.getLast? = some c → isHyphen c = false) :
    slugChars (String.mk l) = l := by
  unfold slugChars
  show trimEdge isHyphen
      (replaceRuns isHyphen '-' false
        (replaceRuns isJsSpace '-' false
          (((String.mk l).toList.map Char.toLower).filter isSlugKept))) = l
  have htl : (String.mk l).toList = l := rfl
  rw [htl, map_toLower_eq_self hout,
    List.filter_eq_self.2 (fun c hc => kept_of_isSlugOut (hout c hc)),
    replaceRuns_eq_self isJsSpace '-' l
      (fun c hc => not_space_of_isSlugOut (hout c hc)) false,
    replaceRuns_eq_self_of_noRun (fun c hc => eq_hyphen_of_isHyphen hc) l false
      hchain (by simp),
    trimEdge_eq_self isHyphen l hhead hlast]

/-- Input on which the truncating slugify fails to be idempotent: 49 `a`s
followed by `" b"`.  Its slug is 49 `a`s, a hyphen, and a `b` (51
characters), so the 50-character truncation ends in a hyphen, which a
second application trims away. -/
def slugCexText : String := String.mk (List.replicate 49 'a') ++ " b"

set_option maxRecDepth 10000 in
/-- **C5 counterexample.** The claim states that both slugify variants are
idempotent; the 50-character-truncating variant used by the TOC hook is
not: on `slugCexText` one application yields 49 `a`s followed by a
hyphen, while a second application removes the trailing hyphen. -/
theorem slugifyTOC_not_idempotent :
    slugifyTOC (slugifyTOC slugCexText) ≠ slugifyTOC slugCexText := by
  decide

/-- **C5 (amended).** The untruncated Markdown-path slug transformation is
idempotent on every string; the 50-character-truncating TOC-hook variant
is idempotent whenever its truncated output does not end in a hyphen
(the only failure mode, exhibited by the counterexample). -/
theorem slugify_idempotence :
    (∀ text, slugifyMd (slugifyMd text) = slugifyMd text) ∧
    (∀ text,
      (∀ c, ((slugChars text).take 50).getLast? = some c → isHyphen c = false) →
      slugifyTOC (slugifyTOC text) = slugifyTOC text) := by
  constructor
  · intro text
    show String.mk (slugChars (String.mk (slugChars text))) = slugifyMd text
    rw [slugChars_eq_self (slugChars text) (slugChars_out text)
      (slugChars_noRun text) (slugChars_head_not text)
      (slugChars_getLast_not text)]
    rfl
  · intro text hlast
    show String.mk ((slugChars (String.mk ((slugChars text).take 50))).take 50) =
      slugifyTOC text
    have hout : ∀ c ∈ (slugChars text).take 50, isSlugOut c = true :=
      fun c hc => slugChars_out text c (List.take_subset 50 _ hc)
    have hchain : NoRun isHyphen ((slugChars text).take 50) :=
      List.Chain'.prefix (slugChars_noRun text) ( List.take_prefix 50 _)
    have hhead : ∀ c, ((slugChars text).take 50).head? = some c →
        isHyphen c = false := by
      intro c hc
      rw [List.head?_take] at hc
      simp only [if_neg (by omega : ¬(50 : Nat) = 0)] at hc
      exact slugChars_head_not text c hc
    rw [slugChars_eq_self _ hout hchain hhead hlast,
      List.take_of_length_le (by simp [List.length_take])]
    rfl

/-- Witness for **C5**: the amended idempotence applied at a concrete
input, with the no-trailing-hyphen hypothesis checked by computation. -/
theorem slugify_idempotence_witness :
    slugifyTOC (slugifyTOC "hello world") = slugifyTOC "hello world" :=
  slugify_idempotence.2 "hello world" (by decide)

/-! ## TOC headings and the nested-TOC builder (`src/hooks/use-toc.ts`,
`buildNestedTOC`) -/

/-- `TOCHeading` from `src/types/index.ts`.  The optional `children` field
is modelled as a plain list (`buildNestedTOC` always installs `[]` before
inserting children, so absence and emptiness are not distinguished). -/
structure TOCHeading where
  id : String
  text : String
  level : Nat
  children : List TOCHeading

/-- Append a child at the end of a parent's children, as
`parent.children.push(item)` does. -/
def attachChild (parent child : TOCHeading) : TOCHeading :=
  { parent with children := parent.children ++ [child] }

/-- Fold a popped stack segment (top first) downwards: each popped node is
attached as the last child of the node below it. -/
def collapseStack (top : TOCHeading) (below : List (TOCHeading × Nat)) :
    TOCHeading :=
  below.foldl (fun cur p => attachChild p.1 cur) top

/-- One iteration of the `buildNestedTOC` loop.  The JS version mutates:
a node is pushed into its parent's `children` (or into the result array)
at *push* time and continues to receive children while on the stack.  The
functional translation attaches a node downwards at *pop* time instead,
which yields the same trees and the same sibling order, because a node is
popped exactly when its subtree is complete and pops happen in push
order. -/
def buildStep (hlv : Nat) (item : TOCHeading)
    (stack : List (TOCHeading × Nat)) (roots : List TOCHeading) :
    List (TOCHeading × Nat) × List TOCHeading :=
  let popped := stack.takeWhile (fun e => hlv ≤ e.2)
  let rest := stack.dropWhile (fun e => hlv ≤ e.2)
  match popped with
  | [] => ((item, hlv) :: stack, roots)
  | p0 :: ps =>
    let built := collapseStack p0.1 ps
    match rest with
    | [] => ([(item, hlv)], roots ++ [built])
    | (pn, pl) :: rr => ((item, hlv) :: (attachChild pn built, pl) :: rr, roots)

/-- Drain the stack after the last heading, attaching each remaining node
below and emitting the bottom-most one as the final root. -/
def finalizeStack (stack : List (TOCHeading × Nat))
    (roots : List TOCHeading) : List TOCHeading :=
  match stack with
  | [] => roots
  | p0 :: ps => roots ++ [collapseStack p0.1 ps]

/-- `buildNestedTOC` from `src/hooks/use-toc.ts`: fold a flat ordered
heading list into a forest using a stack of `(node, level)` pairs,
popping while the top's level is `≥` the incoming level. -/
def buildNestedTOC (headings : List TOCHeading) : List TOCHeading :=
  match headings with
  | [] => []
  | _ =>
    let st := headings.foldl
      (fun st h => buildStep h.level { h with children := [] } st.1 st.2)
      ([], [])
    finalizeStack st.1 st.2

/-- **C4.** On a flat heading list with levels `[2,3,3,2,4]` the tree
builder produces exactly two roots; the first root has exactly two
children, the second root exactly one child, and that child has no
children (the level-4 heading nests directly under the level-2 one). -/
theorem buildNestedTOC_levels_23324 (h1 h2 h3 h4 h5 : TOCHeading)
    (hl1 : h1.level = 2) (hl2 : h2.level = 3) (hl3 : h3.level = 3)
    (hl4 : h4.level = 2) (hl5 : h5.level = 4) :
    ∃ r1 r2 c1 c2 c3,
      buildNestedTOC [h1, h2, h3, h4, h5] = [r1, r2] ∧
      r1.children = [c1, c2] ∧ r2.children = [c3] ∧ c3.children = [] := by
  obtain ⟨i1, t1, l1, ch1⟩ := h1
  obtain ⟨i2, t2, l2, ch2⟩ := h2
  obtain ⟨i3, t3, l3, ch3⟩ := h3
  obtain ⟨i4, t4, l4, ch4⟩ := h4
  obtain ⟨i5, t5, l5, ch5⟩ := h5
  simp only at hl1 hl2 hl3 hl4 hl5
  subst hl1 hl2 hl3 hl4 hl5
  exact ⟨⟨i1, t1, 2, [⟨i2, t2, 3, []⟩, ⟨i3, t3, 3, []⟩]⟩,
    ⟨i4, t4, 2, [⟨i5, t5, 4, []⟩]⟩,
    ⟨i2, t2, 3, []⟩, ⟨i3, t3, 3, []⟩, ⟨i5, t5, 4, []⟩, rfl, rfl, rfl, rfl⟩

/-- Witness for **C4**: the theorem applied to five concrete headings with
levels `2,3,3,2,4`. -/
theorem buildNestedTOC_levels_23324_witness :
    ∃ r1 r2 c1 c2 c3,
      buildNestedTOC
        [⟨"a", "A", 2, []⟩, ⟨"b", "B", 3, []⟩, ⟨"c", "C", 3, []⟩,
         ⟨"d", "D", 2, []⟩, ⟨"e", "E", 4, []⟩] = [r1, r2] ∧
      r1.children = [c1, c2] ∧ r2.children = [c3] ∧ c3.children = [] :=
  buildNestedTOC_levels_23324 _ _ _ _ _ rfl rfl rfl rfl rfl

/-! ## DOM model and conversion options

`htmlToMarkdown` has a client-side strategy working on a parsed DOM tree
(`convertNode`) and a server-side strategy working on the raw string
(`serverSideConvert`).  We model DOM trees as an inductive type; the
client path receives the tree that `DOMParser` would produce. -/

/-- A DOM node: a text node carrying its (entity-decoded) text, or an
element with a lowercase tag name, attributes, and children. -/
inductive DomNode where
  | text (s : String)
  | elem (tag : String) (attrs : List (String × String)) (children : List DomNode)

/-- `HTMLToMarkdownOptions` from `src/types/index.ts`.  Custom per-tag
handlers (used only by the client-side strategy) are a tag-indexed list
of functions from the raw element to its replacement string. -/
structure HTMLToMarkdownOptions where
  preserveLineBreaks : Bool := true
  convertImages : Bool := true
  convertLinks : Bool := true
  stripScripts : Bool := true
  customHandlers : List (String × (DomNode → String)) := []

/-- `defaultOptions` from `src/utils/html-to-markdown.ts`. -/
def defaultOptions : HTMLToMarkdownOptions := {}

/-! ## Regex-pass machinery

Each `markdown.replace(/pattern/g, repl)` in `serverSideConvert` is
modelled as a left-to-right scan: at every position the hand-compiled
matcher `find` is tried; on a match `(replacement, consumed)` the
replacement is emitted and the scan resumes after the consumed
characters (as `RegExp.exec` does with `lastIndex`), otherwise one input
character is copied.  The scan carries explicit fuel and returns `none`
on exhaustion; since every matcher consumes at least one character,
fuel `length + 1` always suffices (proved for claim C7). -/

/-- Fueled global-replace scan. -/
def scanWith (find : List Char → Option (List Char × Nat)) :
    Nat → List Char → Option (List Char)
  | 0, _ => none
  | _ + 1, [] => some []
  | f + 1, c :: cs =>
    match find (c :: cs) with
    | some (rep, n) => (scanWith find f (List.drop n (c :: cs))).map (rep ++ ·)
    | none => (scanWith find f cs).map (c :: ·)

/-- A global replace with standard fuel. -/
def applyPass (find : List Char → Option (List Char × Nat))
    (s : List Char) : Option (List Char) :=
  scanWith find (s.length + 1) s

/-- Scans whose matchers always consume succeed on standard fuel. -/
theorem scanWith_isSome (find : List Char → Option (List Char × Nat))
    (hfind : ∀ s r n, find s = some (r, n) → 1 ≤ n) :
    ∀ (f : Nat) (s : List Char), s.length < f → (scanWith find f s).isSome = true := by
  intro f
  induction f with
  | zero => intro s hs; omega
  | succ f ih =>
    intro s hs
    cases s with
    | nil => simp [scanWith]
    | cons c cs =>
      rw [scanWith]
      rcases hf : find (c :: cs) with _ | ⟨rep, n⟩
      · simp only
        have := ih cs (by simp at hs ⊢; omega)
        rcases ho : scanWith find f cs with _ | t
        · rw [ho] at this; simp at this
        · simp
      · simp only
        have hn := hfind _ _ _ hf
        have hlen : (List.drop n (c :: cs)).length < f := by
          rw [List.length_drop]
          simp at hs ⊢
          omega
        have := ih _ hlen
        rcases ho : scanWith find f (List.drop n (c :: cs)) with _ | t
        · rw [ho] at this; simp at this
        · simp

/-- `applyPass` never fails when the matcher always consumes. -/
theorem applyPass_isSome (find : List Char → Option (List Char × Nat))
    (hfind : ∀ s r n, find s = some (r, n) → 1 ≤ n) (s : List Char) :
    (applyPass find s).isSome = true :=
  scanWith_isSome find hfind (s.length + 1) s (by omega)

/-! ### Character helpers for the matchers -/

/-- Case-insensitive prefix test (the `i` regex flag; ASCII fold via
`Char.toLower`, which suffices for the tag and attribute literals). -/
def startsWithCI : List Char → List Char → Bool
  | [], _ => true
  | _ :: _, [] => false
  | p :: ps, c :: cs => (p.toLower == c.toLower) && startsWithCI ps cs

/-- Case-sensitive prefix test. -/
def startsWithCS : List Char → List Char → Bool
  | [], _ => true
  | _ :: _, [] => false
  | p :: ps, c :: cs => (p == c) && startsWithCS ps cs

/-- `>` test. -/
def isGt (c : Char) : Bool := c == '>'

/-- Either quote character, as matched by the regex class `["']`. -/
def isQuoteCh (c : Char) : Bool := c == '"' || c == '\''

/-- Index of the first character satisfying `p`. -/
def findCharIdx (p : Char → Bool) : List Char → Option Nat
  | [] => none
  | c :: cs => if p c then some 0 else (findCharIdx p cs).map (· + 1)

/-- Length of the maximal prefix satisfying `p`. -/
def countLeading (p : Char → Bool) (l : List Char) : Nat :=
  (l.takeWhile p).length

/-- The lazy search `(.*?)close`: the least index at which `close`
occurs (case-insensitively), subject to `.` not crossing newlines unless
the `s` flag (`multiline`) is set. -/
def lazyClose (multiline : Bool) (close : List Char) : List Char → Option Nat
  | [] => if startsWithCI close [] then some 0 else none
  | c :: cs =>
    if startsWithCI close (c :: cs) then some 0
    else if !multiline && c == '\n' then none
    else (lazyClose multiline close cs).map (· + 1)

/-- Greedy-backtracking offset search: try an action at offsets
`a, a-1, …, 0` and keep the first success (the order in which a greedy
leading `[^>]*` releases characters). -/
def descend {β : Type} (try1 : Nat → Option β) : Nat → Option β
  | 0 => try1 0
  | a + 1 =>
    match try1 (a + 1) with
    | some r => some r
    | none => descend try1 a

/-! ### The individual matchers

Each matcher corresponds to one `replace` call of `serverSideConvert`
(`src/utils/html-to-markdown.ts`, lines 39-112); its doc comment records
the regex it compiles and the backtracking analysis justifying the
deterministic algorithm. -/

/-- Literal (case-sensitive) pattern, fixed replacement — the entity
table replaces built with `new RegExp(entity, 'g')`. -/
def findLiteral (pat rep : List Char) (s : List Char) : Option (List Char × Nat) :=
  if startsWithCS pat s then some (rep, pat.length) else none

/-- Case-insensitive literal pattern (closing tags such as `</ul>`,
replaced under the `gi` flags). -/
def findLiteralCI (pat rep : List Char) (s : List Char) : Option (List Char × Nat) :=
  if startsWithCI pat s then some (rep, pat.length) else none

/-- `<tag\b[^<]*(?:(?!<\/tag>)<[^<]*)*<\/tag>` (the script/style
stripper): the tempered pattern matches from `<tag` — with a word
boundary after the tag name — up to the first subsequent `</tag>`; with
no closing tag there is no match.  `findSub` locates the first
case-insensitive occurrence of the closing tag. -/
def findSubCI (pat : List Char) : List Char → Option Nat
  | [] => if startsWithCI pat [] then some 0 else none
  | c :: cs =>
    if startsWithCI pat (c :: cs) then some 0
    else (findSubCI pat cs).map (· + 1)

/-- Matcher for the script/style stripping passes. -/
def findBlockStrip (tag : List Char) (s : List Char) : Option (List Char × Nat) :=
  if startsWithCI ('<' :: tag) s then
    let after := s.drop (1 + tag.length)
    let boundary :=
      match after.head? with
      | none => true
      | some c => !isWordChar c
    if boundary then
      match findSubCI ('<' :: '/' :: tag ++ ['>']) after with
      | none => none
      | some i => some ([], 1 + tag.length + i + (tag.length + 3))
    else none
  else none

/-- `<tag[^>]*>(.*?)<\/tag>` with replacement built from the lazy capture.
Backtracking analysis: the greedy `[^>]*` cannot cross `>`, so `>` can
only match the first `>` after the tag name; the lazy `(.*?)` stops at
the first case-insensitive `</tag>` (not crossing newlines unless the
`s` flag is set); if no closing tag is reachable the whole match fails
(no other quantifier split can succeed). -/
def findTagPair (tag : List Char) (multiline : Bool)
    (mk : List Char → List Char) (s : List Char) : Option (List Char × Nat) :=
  if startsWithCI ('<' :: tag) s then
    let after := s.drop (1 + tag.length)
    match findCharIdx isGt after with
    | none => none
    | some g =>
      let content0 := after.drop (g + 1)
      match lazyClose multiline ('<' :: '/' :: tag ++ ['>']) content0 with
      | none => none
      | some clen =>
        some (mk (content0.take clen),
          1 + tag.length + g + 1 + clen + (tag.length + 3))
  else none

/-- `<(t1|t2)[^>]*>(.*?)<\/\1>`: regex alternation tries the
alternatives in order at each position; the backreference `\1` closes
with the same tag, so each alternative behaves as `findTagPair`. -/
def findTagPairAlt (tags : List (List Char)) (multiline : Bool)
    (mk : List Char → List Char) (s : List Char) : Option (List Char × Nat) :=
  match tags with
  | [] => none
  | t :: ts =>
    match findTagPair t multiline mk s with
    | some r => some r
    | none => findTagPairAlt ts multiline mk s

/-- `<tag[^>]*>` with a fixed replacement (`<ul>`, `<ol>`, `<hr>`
passes; the `\/?` of the `hr` pattern is subsumed by `[^>]*`). -/
def findOpenTag (tag : List Char) (rep : List Char) (s : List Char) :
    Option (List Char × Nat) :=
  if startsWithCI ('<' :: tag) s then
    match findCharIdx isGt (s.drop (1 + tag.length)) with
    | none => none
    | some g => some (rep, 1 + tag.length + g + 1)
  else none

/-- `name=["']([^"']*)["']` at the start of `t`: the capture is the
maximal run free of either quote character, closed by either quote.
Returns the capture and the matched length. -/
def matchAttrAt (name : List Char) (t : List Char) : Option (List Char × Nat) :=
  if startsWithCI name t then
    match t.drop name.length with
    | [] => none
    | q :: rest =>
      if isQuoteCh q then
        let caplen := countLeading (fun c => !isQuoteCh c) rest
        match (rest.drop caplen).head? with
        | none => none
        | some q2 =>
          if isQuoteCh q2 then some (rest.take caplen, name.length + 1 + caplen + 1)
          else none
      else none
  else none

/-- `<a[^>]*href=["']([^"']*)["'][^>]*>(.*?)<\/a>` → `[$2]($1)`.
The greedy `[^>]*` is released from the right, so the `href=` attribute
is sought at offsets `amax, …, 0` inside the initial `[^>]`-run, and for
each candidate the rest of the pattern must complete before a shorter
offset is tried. -/
def findLink (s : List Char) : Option (List Char × Nat) :=
  if startsWithCI ['<', 'a'] s then
    let region := s.drop 2
    let amax := countLeading (fun c => !isGt c) region
    descend
      (fun a =>
        match matchAttrAt ['h', 'r', 'e', 'f', '='] (region.drop a) with
        | none => none
        | some (cap, alen) =>
          let after := region.drop (a + alen)
          match findCharIdx isGt after with
          | none => none
          | some g =>
            let content0 := after.drop (g + 1)
            match lazyClose false ['<', '/', 'a', '>'] content0 with
            | none => none
            | some clen =>
              some ('[' :: content0.take clen ++ ']' :: '(' :: cap ++ [')'],
                2 + a + alen + g + 1 + clen + 4))
      amax
  else none

/-- The three `<img …>` patterns (`src` then `alt`, `alt` then `src`,
`src` alone); the trailing `\/?>` is subsumed by the final `[^>]*>`
since the greedy run already swallows any `/`. -/
def findImg (first second : List Char)
    (mk : List Char → List Char → List Char) (s : List Char) :
    Option (List Char × Nat) :=
  if startsWithCI ['<', 'i', 'm', 'g'] s then
    let region := s.drop 4
    let amax := countLeading (fun c => !isGt c) region
    descend
      (fun a =>
        match matchAttrAt first (region.drop a) with
        | none => none
        | some (cap1, alen) =>
          let after1 := region.drop (a + alen)
          let bmax := countLeading (fun c => !isGt c) after1
          descend
            (fun b =>
              match matchAttrAt second (after1.drop b) with
              | none => none
              | some (cap2, blen) =>
                let after2 := after1.drop (b + blen)
                match findCharIdx isGt after2 with
                | none => none
                | some g =>
                  some (mk cap1 cap2, 4 + a + alen + b + blen + g + 1))
            bmax)
      amax
  else none

/-- `<img[^>]*src=["']([^"']*)["'][^>]*\/?>` → `![]($1)` (single
attribute). -/
def findImgSrcOnly (s : List Char) : Option (List Char × Nat) :=
  if startsWithCI ['<', 'i', 'm', 'g'] s then
    let region := s.drop 4
    let amax := countLeading (fun c => !isGt c) region
    descend
      (fun a =>
        match matchAttrAt ['s', 'r', 'c', '='] (region.drop a) with
        | none => none
        | some (cap1, alen) =>
          let after := region.drop (a + alen)
          match findCharIdx isGt after with
          | none => none
          | some g =>
            some ('!' :: '[' :: ']' :: '(' :: cap1 ++ [')'],
              4 + a + alen + g + 1))
      amax
  else none

/-- `<pre[^>]*><code[^>]*>(.*?)<\/code><\/pre>` (with the `s` flag) →
a fenced code block. -/
def findPreCode (s : List Char) : Option (List Char × Nat) :=
  if startsWithCI ['<', 'p', 'r', 'e'] s then
    let after := s.drop 4
    match findCharIdx isGt after with
    | none => none
    | some g1 =>
      let t := after.drop (g1 + 1)
      if startsWithCI ['<', 'c', 'o', 'd', 'e'] t then
        let after2 := t.drop 5
        match findCharIdx isGt after2 with
        | none => none
        | some g2 =>
          let content0 := after2.drop (g2 + 1)
          match lazyClose true
              ("</code></pre>".toList) content0 with
          | none => none
          | some clen =>
            some (("\n```\n".toList) ++ content0.take clen ++ ("\n```\n".toList),
              4 + g1 + 1 + 5 + g2 + 1 + clen + 13)
      else none
  else none

/-- `<br\s*\/?>` → newline: after `<br` a greedy whitespace run, an
optional slash and the closing `>`. -/
def findBr (s : List Char) : Option (List Char × Nat) :=
  if startsWithCI ['<', 'b', 'r'] s then
    let after := s.drop 3
    let w := countLeading isJsSpace after
    match after.drop w with
    | '/' :: '>' :: _ => some (['\n'], 3 + w + 2)
    | '>' :: _ => some (['\n'], 3 + w + 1)
    | _ => none
  else none

/-- `<[^>]+>` → empty: strip any remaining tag (at least one character
between the angle brackets). -/
def findStripTag (s : List Char) : Option (List Char × Nat) :=
  match s with
  | '<' :: rest =>
    match findCharIdx isGt rest with
    | none => none
    | some g => if 1 ≤ g then some ([], g + 2) else none
  | _ => none

/-- `&#(\d+);` → `String.fromCharCode(parseInt(num, 10))`.  JS
`fromCharCode` truncates to 16 bits; scalar values in the surrogate gap
cannot inhabit `Char`, for which `Char.ofNat` yields `\0` — a divergence
confined to lone-surrogate outputs. -/
def digitsToNat (l : List Char) : Nat :=
  l.foldl (fun a c => a * 10 + (c.toNat - 48)) 0

/-- Matcher for decimal numeric entities. -/
def findEntityDec (s : List Char) : Option (List Char × Nat) :=
  match s with
  | '&' :: '#' :: rest =>
    let d := countLeading isDigitChar rest
    if 1 ≤ d then
      match (rest.drop d).head? with
      | some ';' => some ([Char.ofNat (digitsToNat (rest.take d) % 65536)], 2 + d + 1)
      | _ => none
    else none
  | _ => none

/-- Hex digit test for `&#x…;` (the `i` flag admits both cases). -/
def isHexDigit (c : Char) : Bool :=
  isDigitChar c || (97 ≤ c.toNat && c.toNat ≤ 102) || (65 ≤ c.toNat && c.toNat ≤ 70)

/-- Hex digit value. -/
def hexVal (c : Char) : Nat :=
  if isDigitChar c then c.toNat - 48
  else if 97 ≤ c.toNat then c.toNat - 87
  else c.toNat - 55

/-- Hex digits to a number. -/
def hexToNat (l : List Char) : Nat :=
  l.foldl (fun a c => a * 16 + hexVal c) 0

/-- Matcher for hexadecimal numeric entities `&#x…;` (case-insensitive). -/
def findEntityHex (s : List Char) : Option (List Char × Nat) :=
  match s with
  | '&' :: '#' :: x :: rest =>
    if x.toLower == 'x' then
      let d := countLeading isHexDigit rest
      if 1 ≤ d then
        match (rest.drop d).head? with
        | some ';' => some ([Char.ofNat (hexToNat (rest.take d) % 65536)], 3 + d + 1)
        | _ => none
      else none
    else none
  | _ => none

/-- `\n{3,}` → `\n\n`: a maximal run of three or more newlines collapses
to exactly two. -/
def findNl3 (s : List Char) : Option (List Char × Nat) :=
  let k := countLeading (fun c => c == '\n') s
  if 3 ≤ k then some (['\n', '\n'], k) else none

/-- The blockquote replacement callback:
`'\n> ' + content.trim().replace(/\n/g, '\n> ') + '\n'`. -/
def bqMk (content : List Char) : List Char :=
  '\n' :: '>' :: ' ' ::
    ((trimEdge isJsSpace content).flatMap
      (fun c => if c == '\n' then ['\n', '>', ' '] else [c])) ++ ['\n']

/-- The named-entity table of `decodeHTMLEntities`, in object-key order
(each row becomes one sequential global replace). -/
def entityTable : List (List Char × List Char) :=
  [("&amp;".toList, "&".toList), ("&lt;".toList, "<".toList),
   ("&gt;".toList, ">".toList), ("&quot;".toList, "\"".toList),
   ("&#39;".toList, "'".toList), ("&apos;".toList, "'".toList),
   ("&nbsp;".toList, " ".toList), ("&mdash;".toList, "—".toList),
   ("&ndash;".toList, "–".toList), ("&hellip;".toList, "…".toList),
   ("&copy;".toList, "©".toList), ("&reg;".toList, "®".toList),
   ("&trade;".toList, "™".toList)]

/-- `decodeHTMLEntities` from `src/utils/html-to-markdown.ts`: the 13
named-entity replaces in order, then decimal and hex numeric entities. -/
def decodeHTMLEntitiesO (s : List Char) : Option (List Char) := do
  let s1 ← entityTable.foldlM
    (fun acc e => applyPass (findLiteral e.1 e.2) acc) s
  let s2 ← applyPass findEntityDec s1
  applyPass findEntityHex s2

/-- String-level entity decoder (total; fuel cannot run out, see C7's
machinery — the fallback branch is unreachable). -/
def decodeHTMLEntities (t : String) : String :=
  match decodeHTMLEntitiesO t.toList with
  | some l => String.mk l
  | none => t

/-- Heading replacement template `\n#… $1\n` for level `n` (the source
writes the six replaces out literally; they differ only in the number of
`#` characters). -/
def mkHeading (n : Nat) (c : List Char) : List Char :=
  '\n' :: (List.replicate n '#' ++ ' ' :: c ++ ['\n'])

/-- The ordered pass list of `serverSideConvert`
(`src/utils/html-to-markdown.ts` lines 39-112): scripts/styles, the six
heading levels, bold, italic, links, the three image patterns, list
tags, list items, blockquotes, code blocks, inline code, paragraphs,
line breaks, horizontal rules, leftover-tag stripping, entity decoding,
and blank-line collapsing. -/
def passList (opts : HTMLToMarkdownOptions) :
    List (List Char → Option (List Char)) :=
  (if opts.stripScripts then
    [applyPass (findBlockStrip "script".toList),
     applyPass (findBlockStrip "style".toList)]
   else []) ++
  [applyPass (findTagPair "h1".toList false (mkHeading 1)),
   applyPass (findTagPair "h2".toList false (mkHeading 2)),
   applyPass (findTagPair "h3".toList false (mkHeading 3)),
   applyPass (findTagPair "h4".toList false (mkHeading 4)),
   applyPass (findTagPair "h5".toList false (mkHeading 5)),
   applyPass (findTagPair "h6".toList false (mkHeading 6)),
   applyPass (findTagPairAlt ["strong".toList, "b".toList] false
     (fun c => '*' :: '*' :: c ++ ['*', '*'])),
   applyPass (findTagPairAlt ["em".toList, "i".toList] false
     (fun c => '*' :: c ++ ['*']))] ++
  (if opts.convertLinks then [applyPass findLink] else []) ++
  (if opts.convertImages then
    [applyPass (findImg "src=".toList "alt=".toList
       (fun cap1 cap2 => '!' :: '[' :: cap2 ++ ']' :: '(' :: cap1 ++ [')'])),
     applyPass (findImg "alt=".toList "src=".toList
       (fun cap1 cap2 => '!' :: '[' :: cap1 ++ ']' :: '(' :: cap2 ++ [')'])),
     applyPass findImgSrcOnly]
   else []) ++
  [applyPass (findOpenTag "ul".toList ['\n']),
   applyPass (findLiteralCI "</ul>".toList ['\n']),
   applyPass (findOpenTag "ol".toList ['\n']),
   applyPass (findLiteralCI "</ol>".toList ['\n']),
   applyPass (findTagPair "li".toList false (fun c => '-' :: ' ' :: c ++ ['\n'])),
   applyPass (findTagPair "blockquote".toList true bqMk),
   applyPass findPreCode,
   applyPass (findTagPair "code".toList false (fun c => '`' :: c ++ ['`'])),
   applyPass (findTagPair "p".toList true (fun c => '\n' :: c ++ ['\n'])),
   applyPass findBr,
   applyPass (findOpenTag "hr".toList "\n---\n".toList),
   applyPass findStripTag,
   decodeHTMLEntitiesO,
   applyPass findNl3]

/-- `serverSideConvert` from `src/utils/html-to-markdown.ts`: run every
pass in order, then trim, in the `Option` monad that records fuel
exhaustion (never reached — claim C7). -/
def serverSideConvertO (html : String) (opts : HTMLToMarkdownOptions) :
    Option String := do
  let s ← (passList opts).foldlM (fun acc f => f acc) html.toList
  return String.mk (trimEdge isJsSpace s)

/-- Total wrapper for `serverSideConvert`; the `getD` branch is dead by
claim C7. -/
def serverSideConvert (html : String) (opts : HTMLToMarkdownOptions) : String :=
  (serverSideConvertO html opts).getD ""

/-! ### Totality of the pass pipeline (claim C7)

Every matcher consumes at least one character on a match, so every pass
succeeds within its standard fuel. -/

/-- `findLiteral` consumes (for nonempty patterns). -/
theorem findLiteral_pos (pat rep : List Char) (hp : 1 ≤ pat.length) :
    ∀ s r n, findLiteral pat rep s = some (r, n) → 1 ≤ n := by
  intro s r n h
  unfold findLiteral at h
  split at h
  · simp only [Option.some.injEq, Prod.mk.injEq] at h
    omega
  · cases h

/-- `findLiteralCI` consumes (for nonempty patterns). -/
theorem findLiteralCI_pos (pat rep : List Char) (hp : 1 ≤ pat.length) :
    ∀ s r n, findLiteralCI pat rep s = some (r, n) → 1 ≤ n := by
  intro s r n h
  unfold findLiteralCI at h
  split at h
  · simp only [Option.some.injEq, Prod.mk.injEq] at h
    omega
  · cases h

/-- `findBlockStrip` consumes. -/
theorem findBlockStrip_pos (tag : List Char) :
    ∀ s r n, findBlockStrip tag s = some (r, n) → 1 ≤ n := by
  intro s r n h
  unfold findBlockStrip at h
  try dsimp only [] at h
  repeat' split at h
  all_goals
    first
      | (simp only [reduceCtorEq] at h)
      | (simp only [Option.some.injEq, Prod.mk.injEq] at h; omega)

/-- `findTagPair` consumes. -/
theorem findTagPair_pos (tag : List Char) (ml : Bool)
    (mk : List Char → List Char) :
    ∀ s r n, findTagPair tag ml mk s = some (r, n) → 1 ≤ n := by
  intro s r n h
  unfold findTagPair at h
  try dsimp only [] at h
  repeat' split at h
  all_goals
    first
      | (simp only [reduceCtorEq] at h)
      | (simp only [Option.some.injEq, Prod.mk.injEq] at h; omega)

/-- `findTagPairAlt` consumes. -/
theorem findTagPairAlt_pos (tags : List (List Char)) (ml : Bool)
    (mk : List Char → List Char) :
    ∀ s r n, findTagPairAlt tags ml mk s = some (r, n) → 1 ≤ n := by
  induction tags with
  | nil => intro s r n h; cases h
  | cons t ts ih =>
    intro s r n h
    unfold findTagPairAlt at h
    rcases ht : findTagPair t ml mk s with _ | q
    · rw [ht] at h
      exact ih s r n h
    · rw [ht] at h
      simp only [Option.some.injEq] at h
      subst h
      exact findTagPair_pos t ml mk s r n ht

/-- `findOpenTag` consumes. -/
theorem findOpenTag_pos (tag rep : List Char) :
    ∀ s r n, findOpenTag tag rep s = some (r, n) → 1 ≤ n := by
  intro s r n h
  unfold findOpenTag at h
  try dsimp only [] at h
  repeat' split at h
  all_goals
    first
      | (simp only [reduceCtorEq] at h)
      | (simp only [Option.some.injEq, Prod.mk.injEq] at h; omega)

/-- `descend` preserves the consumption bound of its candidate action. -/
theorem descend_pos (try1 : Nat → Option (List Char × Nat))
    (h : ∀ a r n, try1 a = some (r, n) → 1 ≤ n) :
    ∀ a0 r n, descend try1 a0 = some (r, n) → 1 ≤ n := by
  intro a0
  induction a0 with
  | zero => intro r n hh; exact h 0 r n hh
  | succ a ih =>
    intro r n hh
    unfold descend at hh
    rcases ht : try1 (a + 1) with _ | q
    · rw [ht] at hh
      exact ih r n hh
    · rw [ht] at hh
      simp only [Option.some.injEq] at hh
      subst hh
      exact h (a + 1) r n ht

/-- `findLink` consumes. -/
theorem findLink_pos : ∀ s r n, findLink s = some (r, n) → 1 ≤ n := by
  intro s r n h
  unfold findLink at h
  split at h
  · refine descend_pos _ ?_ _ r n h
    intro a r' n' h'
    try dsimp only [] at h'
    repeat' split at h'
    all_goals
      first
        | (simp only [reduceCtorEq] at h')
        | (simp only [Option.some.injEq, Prod.mk.injEq] at h'; omega)
  · cases h

/-- `findImg` consumes. -/
theorem findImg_pos (first second : List Char)
    (mk : List Char → List Char → List Char) :
    ∀ s r n, findImg first second mk s = some (r, n) → 1 ≤ n := by
  intro s r n h
  unfold findImg at h
  split at h
  · refine descend_pos _ ?_ _ r n h
    intro a r' n' h'
    split at h'
    · cases h'
    · refine descend_pos _ ?_ _ r' n' h'
      intro b r2 n2 h2
      try dsimp only [] at h2
      repeat' split at h2
      all_goals
        first
          | (simp only [reduceCtorEq] at h2)
          | (simp only [Option.some.injEq, Prod.mk.injEq] at h2; omega)
  · cases h

/-- `findImgSrcOnly` consumes. -/
theorem findImgSrcOnly_pos : ∀ s r n, findImgSrcOnly s = some (r, n) → 1 ≤ n := by
  intro s r n h
  unfold findImgSrcOnly at h
  split at h
  · refine descend_pos _ ?_ _ r n h
    intro a r' n' h'
    try dsimp only [] at h'
    repeat' split at h'
    all_goals
      first
        | (simp only [reduceCtorEq] at h')
        | (simp only [Option.some.injEq, Prod.mk.injEq] at h'; omega)
  · cases h

/-- `findPreCode` consumes. -/
theorem findPreCode_pos : ∀ s r n, findPreCode s = some (r, n) → 1 ≤ n := by
  intro s r n h
  unfold findPreCode at h
  try dsimp only [] at h
  repeat' split at h
  all_goals
    first
      | (simp only [reduceCtorEq] at h)
      | (simp only [Option.some.injEq, Prod.mk.injEq] at h; omega)

/-- `findBr` consumes. -/
theorem findBr_pos : ∀ s r n, findBr s = some (r, n) → 1 ≤ n := by
  intro s r n h
  unfold findBr at h
  try dsimp only [] at h
  repeat' split at h
  all_goals
    first
      | (simp only [reduceCtorEq] at h)
      | (simp only [Option.some.injEq, Prod.mk.injEq] at h; omega)

/-- `findStripTag` consumes. -/
theorem findStripTag_pos : ∀ s r n, findStripTag s = some (r, n) → 1 ≤ n := by
  intro s r n h
  unfold findStripTag at h
  try dsimp only [] at h
  repeat' split at h
  all_goals
    first
      | (simp only [reduceCtorEq] at h)
      | (simp only [Option.some.injEq, Prod.mk.injEq] at h; omega)

/-- `findEntityDec` consumes. -/
theorem findEntityDec_pos : ∀ s r n, findEntityDec s = some (r, n) → 1 ≤ n := by
  intro s r n h
  unfold findEntityDec at h
  try dsimp only [] at h
  repeat' split at h
  all_goals
    first
      | (simp only [reduceCtorEq] at h)
      | (simp only [Option.some.injEq, Prod.mk.injEq] at h; omega)

/-- `findEntityHex` consumes. -/
theorem findEntityHex_pos : ∀ s r n, findEntityHex s = some (r, n) → 1 ≤ n := by
  intro s r n h
  unfold findEntityHex at h
  try dsimp only [] at h
  repeat' split at h
  all_goals
    first
      | (simp only [reduceCtorEq] at h)
      | (simp only [Option.some.injEq, Prod.mk.injEq] at h; omega)

/-- `findNl3` consumes. -/
theorem findNl3_pos : ∀ s r n, findNl3 s = some (r, n) → 1 ≤ n := by
  intro s r n h
  unfold findNl3 at h
  dsimp only [] at h
  split at h
  · simp only [Option.some.injEq, Prod.mk.injEq] at h
    omega
  · cases h

/-- An option-valued fold succeeds when every step does. -/
theorem foldlM_option_isSome {β : Type} (l : List β)
    (step : List Char → β → Option (List Char))
    (h : ∀ b ∈ l, ∀ s, (step s b).isSome = true) :
    ∀ s, (l.foldlM step s).isSome = true := by
  induction l with
  | nil => intro s; rfl
  | cons b bs ih =>
    intro s
    rw [List.foldlM_cons]
    have h1 := h b (by simp) s
    rcases hb : step s b with _ | t
    · rw [hb] at h1
      simp at h1
    · simp only [Option.bind_eq_bind, Option.some_bind]
      exact ih (fun b' hb' s' => h b' (by simp [hb']) s') t

/-- Entity decoding always succeeds. -/
theorem decodeHTMLEntitiesO_isSome (s : List Char) :
    (decodeHTMLEntitiesO s).isSome = true := by
  unfold decodeHTMLEntitiesO
  have h1 : ∀ e ∈ entityTable, ∀ t,
      (applyPass (findLiteral e.1 e.2) t).isSome = true := by
    intro e he t
    refine applyPass_isSome _ (findLiteral_pos e.1 e.2 ?_) t
    simp only [entityTable, List.mem_cons, List.not_mem_nil, or_false] at he
    rcases he with rfl | rfl | rfl | rfl | rfl | rfl | rfl | rfl | rfl | rfl |
      rfl | rfl | rfl <;> decide
  have h2 := foldlM_option_isSome entityTable
    (fun acc e => applyPass (findLiteral e.1 e.2) acc)
    (fun e he t => h1 e he t) s
  rcases hf : entityTable.foldlM
      (fun acc e => applyPass (findLiteral e.1 e.2) acc) s with _ | t1
  · rw [hf] at h2
    simp at h2
  · rw [hf]
    simp only [Option.bind_eq_bind, Option.some_bind]
    have h3 := applyPass_isSome findEntityDec findEntityDec_pos t1
    rcases hd : applyPass findEntityDec t1 with _ | t2
    · rw [hd] at h3
      simp at h3
    · simp only [hd, Option.some_bind]
      exact applyPass_isSome findEntityHex findEntityHex_pos t2

/-- Every pass of `serverSideConvert` succeeds on every input. -/
theorem passList_isSome (opts : HTMLToMarkdownOptions) :
    ∀ f ∈ passList opts, ∀ s, (f s).isSome = true := by
  intro f hf s
  simp only [passList, List.mem_append] at hf
  rcases hf with ((((h1 | h2) | h3) | h4) | h5)
  · split at h1
    · simp only [List.mem_cons, List.not_mem_nil, or_false] at h1
      rcases h1 with rfl | rfl
      · exact applyPass_isSome _ (findBlockStrip_pos _) s
      · exact applyPass_isSome _ (findBlockStrip_pos _) s
    · simp at h1
  · simp only [List.mem_cons, List.not_mem_nil, or_false] at h2
    rcases h2 with rfl | rfl | rfl | rfl | rfl | rfl | rfl | rfl
    · exact applyPass_isSome _ (findTagPair_pos _ _ _) s
    · exact applyPass_isSome _ (findTagPair_pos _ _ _) s
    · exact applyPass_isSome _ (findTagPair_pos _ _ _) s
    · exact applyPass_isSome _ (findTagPair_pos _ _ _) s
    · exact applyPass_isSome _ (findTagPair_pos _ _ _) s
    · exact applyPass_isSome _ (findTagPair_pos _ _ _) s
    · exact applyPass_isSome _ (findTagPairAlt_pos _ _ _) s
    · exact applyPass_isSome _ (findTagPairAlt_pos _ _ _) s
  · split at h3
    · simp only [List.mem_singleton] at h3
      subst h3
      exact applyPass_isSome _ findLink_pos s
    · simp at h3
  · split at h4
    · simp only [List.mem_cons, List.not_mem_nil, or_false] at h4
      rcases h4 with rfl | rfl | rfl
      · exact applyPass_isSome _ (findImg_pos _ _ _) s
      · exact applyPass_isSome _ (findImg_pos _ _ _) s
      · exact applyPass_isSome _ findImgSrcOnly_pos s
    · simp at h4
  · simp only [List.mem_cons, List.not_mem_nil, or_false] at h5
    rcases h5 with rfl | rfl | rfl | rfl | rfl | rfl | rfl | rfl | rfl | rfl |
      rfl | rfl | rfl | rfl
    · exact applyPass_isSome _ (findOpenTag_pos _ _) s
    · exact applyPass_isSome _ (findLiteralCI_pos _ _ (by decide)) s
    · exact applyPass_isSome _ (findOpenTag_pos _ _) s
    · exact applyPass_isSome _ (findLiteralCI_pos _ _ (by decide)) s
    · exact applyPass_isSome _ (findTagPair_pos _ _ _) s
    · exact applyPass_isSome _ (findTagPair_pos _ _ _) s
    · exact applyPass_isSome _ findPreCode_pos s
    · exact applyPass_isSome _ (findTagPair_pos _ _ _) s
    · exact applyPass_isSome _ (findTagPair_pos _ _ _) s
    · exact applyPass_isSome _ findBr_pos s
    · exact applyPass_isSome _ (findOpenTag_pos _ _) s
    · exact applyPass_isSome _ findStripTag_pos s
    · exact decodeHTMLEntitiesO_isSome s
    · exact applyPass_isSome _ findNl3_pos s

/-- **C7.** The pattern-substitution conversion path is a total function
over arbitrary string input: for every input string (malformed or
unbalanced HTML included) and every option combination, it produces a
string — the scanning pipeline never exhausts its fuel, i.e. the model
never reaches an error state. -/
theorem serverSideConvert_total (html : String) (opts : HTMLToMarkdownOptions) :
    ∃ md : String, serverSideConvertO html opts = some md := by
  unfold serverSideConvertO
  have h := foldlM_option_isSome (passList opts) (fun acc f => f acc)
    (fun f hf s => passList_isSome opts f hf s) html.toList
  rcases hf : (passList opts).foldlM (fun acc f => f acc) html.toList with _ | t
  · rw [hf] at h
    simp at h
  · exact ⟨String.mk (trimEdge isJsSpace t), by rw [hf]; rfl⟩

/-! ## Markdown assembly (`src/server/generate-markdown.ts`) -/

/-- `LLMContent` from `src/types/index.ts`.  The TS interface declares
`url` as required, but `generateMarkdown` reads it with no runtime check
and JS template literals render an absent field as the string
`"undefined"`; to express claims about records lacking a url we model the
field as optional with that rendering (`jsStr`).  The other optional
fields follow the interface. -/
structure LLMContent where
  title : String
  content : String
  excerpt : Option String := none
  url : Option String := none
  date : Option String := none
  modifiedDate : Option String := none
  author : Option String := none
  categories : Option (List String) := none
  tags : Option (List String) := none
  promptPrefix : Option String := none
  image : Option String := none
  readingTime : Option Nat := none

/-- `MarkdownOutput` from `src/types/index.ts`. -/
structure MarkdownOutput where
  markdown : String
  wordCount : Nat
  readingTime : Nat
  headings : List TOCHeading

/-- JS template-literal rendering of a possibly-absent string. -/
def jsStr : Option String → String
  | some s => s
  | none => "undefined"

/-- JS `String.prototype.trim` (the `\s` whitespace class). -/
def jsTrim (s : String) : String :=
  String.mk (trimEdge isJsSpace s.toList)

/-- Truthiness of an optional string field (JS: absent and `""` are
falsy). -/
def optTruthy : Option String → Bool
  | none => false
  | some s => !(s == "")

/-- A conditional metadata line: emitted exactly when the optional string
field is present and truthy (`if (content.x) parts.push(prefix + x)`). -/
def optLine : Option String → String → List String
  | some v, pre => if v == "" then [] else [pre ++ v]
  | none, _ => []

/-- The conditional categories/tags line
(`if (content.xs?.length) parts.push(prefix + xs.join(', '))`). -/
def optJoinLine : Option (List String) → String → List String
  | some l, pre => if l.isEmpty then [] else [pre ++ String.intercalate ", " l]
  | none, _ => []

/-- The conditional reading-time line
(`if (content.readingTime) parts.push(…)`; `0` is falsy). -/
def optRtLine : Option Nat → List String
  | some n => if n == 0 then [] else ["- **Reading Time**: " ++ Nat.repr n ++ " min"]
  | none => []

/-- The optional prompt-prefix parts (trimmed prompt plus a blank line). -/
def promptSeg : Option String → List String
  | some p => if jsTrim p == "" then [] else [jsTrim p, ""]
  | none => []

/-- The optional excerpt parts (blockquote line plus a blank line). -/
def excerptSeg : Option String → List String
  | some e => if e == "" then [] else ["> " ++ e, ""]
  | none => []


/-- ASCII letter (`[a-z]` under the `i` flag). -/
def isAsciiLetter (c : Char) : Bool :=
  (97 ≤ c.toNat && c.toNat ≤ 122) || (65 ≤ c.toNat && c.toNat ≤ 90)

/-- `isHTML` from `src/server/generate-markdown.ts`:
`/<[a-z][\s\S]*>/i.test(str)` — some `<` followed by a letter with a
later `>`. -/
def isHTMLAux : List Char → Bool
  | [] => false
  | c :: cs =>
    (c == '<' &&
      (match cs with
       | d :: ds => isAsciiLetter d && ds.contains '>'
       | [] => false)) ||
    isHTMLAux cs

/-- String-level wrapper for the HTML heuristic. -/
def isHTML (str : String) : Bool :=
  isHTMLAux str.toList

/-- `htmlToMarkdown` on the server (`typeof window === 'undefined'`
branch of `src/utils/html-to-markdown.ts`): delegate to
`serverSideConvert` with the merged default options. -/
def htmlToMarkdownServer (html : String) : String :=
  serverSideConvert html defaultOptions

/-- The body part: converted when the HTML heuristic fires, verbatim
otherwise, omitted for falsy (empty) content. -/
def bodySeg (content : String) : List String :=
  if content == "" then []
  else [if isHTML content then htmlToMarkdownServer content else content]

/-- The `^(#{1,6})\s+(.+)$` heading-line matcher of
`extractMarkdownHeadings`.  Greedy `#{1,6}` matches an exact hash run of
1-6; `\s+` then `(.+)` require at least one whitespace and, after
back-tracking, at least one captured character (which may itself be the
final whitespace when the line holds nothing else); the capture is then
trimmed. -/
def parseHeadingLine (l : List Char) : Option (Nat × String) :=
  let h := countLeading (fun c => c == '#') l
  if 1 ≤ h && h ≤ 6 then
    let rest := l.drop h
    let sp := countLeading isJsSpace rest
    let content := rest.drop sp
    if 1 ≤ sp then
      if content.isEmpty then
        if 2 ≤ sp then some (h, "") else none
      else some (h, String.mk (trimEdge isJsSpace content))
    else none
  else none

/-- `extractMarkdownHeadings` from `src/server/generate-markdown.ts`:
scan the lines for heading syntax, giving each heading a slug id with the
running index as fallback.  (The source leaves `children` undefined; we
model it as `[]`.) -/
def extractMdAux : List String → Nat → List TOCHeading
  | [], _ => []
  | line :: rest, idx =>
    match parseHeadingLine line.toList with
    | some (lv, text) =>
      ⟨generateSlug text idx, text, lv, []⟩ :: extractMdAux rest (idx + 1)
    | none => extractMdAux rest idx

/-- Markdown-path heading extraction. -/
def extractMarkdownHeadings (markdown : String) : List TOCHeading :=
  extractMdAux (markdown.splitOn "\n") 0

/-- The `parts` array built by `generateMarkdown`
(`src/server/generate-markdown.ts` lines 12-70), one entry per `push`;
the assembled document is these parts joined with newlines and trimmed.
Note that the Source line is pushed unconditionally (line 33), unlike
every other metadata field. -/
def generateMarkdownParts (content : LLMContent) : List String :=
  promptSeg content.promptPrefix ++
  ["# " ++ content.title, ""] ++
  excerptSeg content.excerpt ++
  ["---", "- **Source**: " ++ jsStr content.url] ++
  optLine content.date "- **Date**: " ++
  optLine content.modifiedDate "- **Modified**: " ++
  optLine content.author "- **Author**: " ++
  optJoinLine content.categories "- **Categories**: " ++
  optJoinLine content.tags "- **Tags**: " ++
  optRtLine content.readingTime ++
  ["---", ""] ++
  bodySeg content.content

/-- `generateMarkdown` from `src/server/generate-markdown.ts`. -/
def generateMarkdown (content : LLMContent) : MarkdownOutput :=
  let markdown := jsTrim (String.intercalate "\n" (generateMarkdownParts content))
  { markdown := markdown,
    wordCount := countWords markdown,
    readingTime := calculateReadingTime markdown,
    headings := extractMarkdownHeadings markdown }

/-- `generateMarkdownString` from `src/server/generate-markdown.ts`. -/
def generateMarkdownString (content : LLMContent) : String :=
  (generateMarkdown content).markdown

/-- The metadata block of the assembled document: the parts strictly
between the first `---` delimiter and the next one. -/
def metaBlockParts (content : LLMContent) : List String :=
  (((generateMarkdownParts content).dropWhile (fun p => !(p == "---"))).drop 1).takeWhile
    (fun p => !(p == "---"))

/-- `takeWhile` passes over a prefix entirely satisfying `p`. -/
theorem takeWhile_append_all {α : Type} {p : α → Bool} :
    ∀ {l1 l2 : List α}, (∀ x ∈ l1, p x = true) →
      (l1 ++ l2).takeWhile p = l1 ++ l2.takeWhile p
  | [], l2, _ => rfl
  | a :: l1, l2, h => by
    have ha := h a (by simp)
    simp only [List.cons_append, List.takeWhile_cons, ha, if_true]
    rw [takeWhile_append_all (fun x hx => h x (by simp [hx]))]

/-- `dropWhile` drops a prefix entirely satisfying `p`. -/
theorem dropWhile_append_all {α : Type} {p : α → Bool} :
    ∀ {l1 l2 : List α}, (∀ x ∈ l1, p x = true) →
      (l1 ++ l2).dropWhile p = l2.dropWhile p
  | [], l2, _ => rfl
  | a :: l1, l2, h => by
    have ha := h a (by simp)
    simp only [List.cons_append, List.dropWhile_cons, ha, if_true]
    exact dropWhile_append_all (fun x hx => h x (by simp [hx]))

/-- Boolean form of a string disequality. -/
theorem bnot_beq_true_of_ne {x y : String} (h : x ≠ y) : (!(x == y)) = true := by
  simp [h]

/-- A string whose first two characters are not `--` is not `"---"`. -/
theorem ne_dashes_of_take2 {x : String}
    (h : x.data.take 2 ≠ ['-', '-']) : x ≠ "---" := by
  intro he
  apply h
  rw [he]
  decide

/-- Appending cannot turn a safe two-character prefix into `"---"`. -/
theorem append_ne_dashes (pre t : String) (hlen : 2 ≤ pre.data.length)
    (h2 : pre.data.take 2 ≠ ['-', '-']) : (pre ++ t) ≠ "---" := by
  refine ne_dashes_of_take2 ?_
  intro hx
  apply h2
  rw [← hx]
  show pre.data.take 2 = ((pre ++ t).data).take 2
  rw [String.data_append, List.take_append_of_le_length hlen]

/-- No element of a conditional metadata line is the `---` delimiter. -/
theorem optLine_ne_dashes (o : Option String) (pre : String)
    (hlen : 2 ≤ pre.data.length) (h2 : pre.data.take 2 ≠ ['-', '-']) :
    ∀ x ∈ optLine o pre, (!(x == "---")) = true := by
  intro x hx
  rcases o with _ | v
  · simp [optLine] at hx
  · by_cases hv : v = ""
    · simp [optLine, hv] at hx
    · simp only [optLine, beq_iff_eq, if_neg hv, List.mem_singleton] at hx
      subst hx
      exact bnot_beq_true_of_ne (append_ne_dashes pre v hlen h2)

/-- Same, for the comma-joined lines. -/
theorem optJoinLine_ne_dashes (o : Option (List String)) (pre : String)
    (hlen : 2 ≤ pre.data.length) (h2 : pre.data.take 2 ≠ ['-', '-']) :
    ∀ x ∈ optJoinLine o pre, (!(x == "---")) = true := by
  intro x hx
  rcases o with _ | l
  · simp [optJoinLine] at hx
  · by_cases hl : l.isEmpty
    · simp [optJoinLine, hl] at hx
    · simp only [optJoinLine, if_neg (by simp [hl] : ¬l.isEmpty = true),
        List.mem_singleton] at hx
      subst hx
      exact bnot_beq_true_of_ne (append_ne_dashes pre _ hlen h2)

/-- Same, for the reading-time line. -/
theorem optRtLine_ne_dashes (o : Option Nat) :
    ∀ x ∈ optRtLine o, (!(x == "---")) = true := by
  intro x hx
  rcases o with _ | n
  · simp [optRtLine] at hx
  · by_cases hn : n = 0
    · simp [optRtLine, hn] at hx
    · simp only [optRtLine, beq_iff_eq, if_neg hn, List.mem_singleton] at hx
      subst hx
      refine bnot_beq_true_of_ne (ne_dashes_of_take2 ?_)
      intro hq
      have hone : (("- **Reading Time**: " ++ Nat.repr n ++ " min").data).take 2 =
          ("- **Reading Time**: ".data).take 2 := by
        rw [String.data_append, String.data_append,
          List.take_append_of_le_length (by
            rw [List.length_append]
            have h20 : 2 ≤ "- **Reading Time**: ".data.length := by decide
            omega),
          List.take_append_of_le_length (by decide)]
      rw [hone] at hq
      revert hq
      decide

/-- No element of the prompt segment is the delimiter, given the
non-degenerate-prompt hypothesis. -/
theorem promptSeg_ne_dashes (o : Option String)
    (hp : o.map jsTrim ≠ some "---") :
    ∀ x ∈ promptSeg o, (!(x == "---")) = true := by
  intro x hx
  rcases o with _ | p
  · simp [promptSeg] at hx
  · have hp' : jsTrim p ≠ "---" := by
      intro hq
      exact hp (by rw [show Option.map jsTrim (some p) = some (jsTrim p) from rfl, hq])
    by_cases hpe : jsTrim p = ""
    · simp [promptSeg, hpe] at hx
    · simp only [promptSeg, beq_iff_eq, if_neg hpe, List.mem_cons,
        List.not_mem_nil, or_false] at hx
      rcases hx with rfl | rfl
      · exact bnot_beq_true_of_ne hp'
      · decide

/-- No element of the excerpt segment is the delimiter. -/
theorem excerptSeg_ne_dashes (o : Option String) :
    ∀ x ∈ excerptSeg o, (!(x == "---")) = true := by
  intro x hx
  rcases o with _ | e
  · simp [excerptSeg] at hx
  · by_cases hee : e = ""
    · simp [excerptSeg, hee] at hx
    · simp only [excerptSeg, beq_iff_eq, if_neg hee, List.mem_cons,
        List.not_mem_nil, or_false] at hx
      rcases hx with rfl | rfl
      · exact bnot_beq_true_of_ne (append_ne_dashes "> " e (by decide) (by decide))
      · decide

/-- **C1 (amended).** The metadata block — the parts strictly between
the `---` delimiters — always begins with a Source line (rendering
`undefined` when the record has no url), followed, in the fixed order
Date, Modified, Author, Categories, Tags, Reading Time, by exactly the
lines of the fields that are present with truthy values.  The hypothesis
excludes the degenerate prompt prefix that itself trims to `---` (which
would shift the block delimiters). -/
theorem generateMarkdown_metaBlock (c : LLMContent)
    (hp : c.promptPrefix.map jsTrim ≠ some "---") :
    metaBlockParts c =
      ("- **Source**: " ++ jsStr c.url) ::
      (optLine c.date "- **Date**: " ++
       optLine c.modifiedDate "- **Modified**: " ++
       optLine c.author "- **Author**: " ++
       optJoinLine c.categories "- **Categories**: " ++
       optJoinLine c.tags "- **Tags**: " ++
       optRtLine c.readingTime) := by
  have hT : (fun x : String => !(x == "---")) ("# " ++ c.title) = true :=
    bnot_beq_true_of_ne (append_ne_dashes "# " c.title (by decide) (by decide))
  have hE : (fun x : String => !(x == "---")) "" = true := by decide
  have hD : ¬((fun x : String => !(x == "---")) "---" = true) := by decide
  have hS : (fun x : String => !(x == "---"))
      ("- **Source**: " ++ jsStr c.url) = true :=
    bnot_beq_true_of_ne
      (append_ne_dashes "- **Source**: " (jsStr c.url) (by decide) (by decide))
  unfold metaBlockParts generateMarkdownParts
  simp only [List.append_assoc, List.cons_append, List.nil_append]
  rw [dropWhile_append_all (promptSeg_ne_dashes c.promptPrefix hp),
    @List.dropWhile_cons_of_pos String (fun x => !(x == "---"))
      ("# " ++ c.title) _ hT,
    @List.dropWhile_cons_of_pos String (fun x => !(x == "---")) "" _ hE,
    dropWhile_append_all (excerptSeg_ne_dashes c.excerpt),
    @List.dropWhile_cons_of_neg String (fun x => !(x == "---")) "---" _ hD,
    List.drop_one, List.tail_cons,
    @List.takeWhile_cons_of_pos String (fun x => !(x == "---"))
      ("- **Source**: " ++ jsStr c.url) _ hS,
    takeWhile_append_all (optLine_ne_dashes _ _ (by decide) (by decide)),
    takeWhile_append_all (optLine_ne_dashes _ _ (by decide) (by decide)),
    takeWhile_append_all (optLine_ne_dashes _ _ (by decide) (by decide)),
    takeWhile_append_all (optJoinLine_ne_dashes _ _ (by decide) (by decide)),
    takeWhile_append_all (optJoinLine_ne_dashes _ _ (by decide) (by decide)),
    takeWhile_append_all (optRtLine_ne_dashes _),
    @List.takeWhile_cons_of_neg String (fun x => !(x == "---")) "---" _ hD]
  simp

/-- A record with no url at all. -/
def noUrlContent : LLMContent := { title := "T", content := "" }

/-- **C1 counterexample.** The claim asserts that no Source line appears
when the record has no url; in fact the generator pushes the Source line
unconditionally, rendering the absent field as `undefined`. -/
theorem metaBlock_source_without_url :
    noUrlContent.url = none ∧
    metaBlockParts noUrlContent = ["- **Source**: undefined"] :=
  ⟨rfl, by decide⟩

/-- A concrete record exercising present and absent metadata fields. -/
def metaWitnessContent : LLMContent :=
  { title := "T", content := "", url := some "u", date := some "d",
    tags := some ["x", "y"] }

/-- Witness for **C1**: the amended theorem applied to a concrete record
(its no-degenerate-prompt hypothesis checked by computation), together
with the definitional link between the parts list and the assembled
markdown string. -/
theorem generateMarkdown_metaBlock_witness :
    metaBlockParts metaWitnessContent =
      ["- **Source**: u", "- **Date**: d", "- **Tags**: x, y"] ∧
    (generateMarkdown metaWitnessContent).markdown =
      jsTrim (String.intercalate "\n" (generateMarkdownParts metaWitnessContent)) := by
  constructor
  · rw [generateMarkdown_metaBlock metaWitnessContent (by decide)]
    decide
  · rfl

/-! ## HTTP-style handlers (`src/api/markdown-handler.ts`,
`src/api/analytics-handler.ts`)

Requests and responses are modelled structurally; the analytics handler
is a state machine over its module-level rate-limit map plus the
in-memory storage adapter (`createInMemoryStorage`, whose `save` appends
and cannot fail).  `Date.now()` is an explicit `now` parameter and
`new Date().toISOString()` an abstract rendering of it. -/

/-- JS `a || b` for an optional string with a string default (absent and
`""` are falsy). -/
def jsOr (o : Option String) (d : String) : String :=
  match o with
  | some s => if s == "" then d else s
  | none => d

/-- JS `a || b` where the fallback is itself nullable
(`body.url || request.headers.get('referer')`). -/
def jsOrOpt (o fb : Option String) : Option String :=
  match o with
  | some s => if s == "" then fb else some s
  | none => fb

/-- The runtime shape of a stored analytics event (the TS interface
types `action` as `'copy' | 'view' | 'download'`, but the handler builds
it from the request body with no check, so any string can occur —
claim C10). `metadata` is an opaque JSON payload. -/
structure AnalyticsEventR where
  action : String
  contentId : Option String
  url : Option String
  timestamp : String
  metadata : Option String

/-- Response body: plain text, the analytics JSON envelopes, or empty
(204). -/
inductive ResponseBody where
  | text (s : String)
  | jsonSuccess (event : AnalyticsEventR)
  | jsonError (error : String)
  | empty

/-- An HTTP response. -/
structure HandlerResponse where
  status : Nat
  headers : List (String × String)
  body : ResponseBody

/-- `MarkdownHandlerOptions` (the content lookup is modelled as a pure
function; a rejected promise is outside the claims, which condition on
the lookup returning null or succeeding). -/
structure MarkdownHandlerOptionsR where
  getContent : String → Option LLMContent
  cacheControl : Option String := none
  cors : Bool := false

/-- `createMarkdownHandler` from `src/api/markdown-handler.ts` (lines
94-133), applied to the slug taken from the route params
(`params?.slug || ''`). -/
def createMarkdownHandler (options : MarkdownHandlerOptionsR)
    (slug : String) : HandlerResponse :=
  match options.getContent slug with
  | none =>
    { status := 404, headers := [("Content-Type", "text/plain")],
      body := .text "Content not found" }
  | some content =>
    { status := 200,
      headers :=
        [("Content-Type", "text/markdown; charset=utf-8"),
         ("Cache-Control", jsOr options.cacheControl "public, max-age=3600"),
         ("X-Robots-Tag", "noindex")] ++
        (if options.cors then
          [("Access-Control-Allow-Origin", "*"),
           ("Access-Control-Allow-Methods", "GET")]
         else []),
      body := .text (generateMarkdownString content) }

/-- A parsed analytics POST body (`none` in `AnalyticsRequest.body`
models a `request.json()` rejection). -/
structure AnalyticsBody where
  action : Option String := none
  contentId : Option String := none
  url : Option String := none
  metadata : Option String := none

/-- An incoming analytics request. -/
structure AnalyticsRequest where
  method : String
  xForwardedFor : Option String := none
  referer : Option String := none
  body : Option AnalyticsBody := none

/-- One per-client rate-limit record (`{count, resetAt}`). -/
structure RateEntry where
  count : Nat
  resetAt : Nat

/-- The handler's mutable state: the module-level `requestCounts` map
(insertion-ordered association list, as a JS `Map`) and the in-memory
event log. -/
structure AnalyticsState where
  requestCounts : List (String × RateEntry) := []
  events : List AnalyticsEventR := []

/-- `AnalyticsHandlerOptions` (storage fixed to the in-memory adapter). -/
structure AnalyticsHandlerOptionsR where
  rateLimit : Option Nat := none
  cors : Bool := false

/-- `Map.get`. -/
def lookupRate (m : List (String × RateEntry)) (k : String) : Option RateEntry :=
  (m.find? (fun e => e.1 == k)).map (fun e => e.2)

/-- `Map.set`: replace in place or append. -/
def setRate : List (String × RateEntry) → String → RateEntry → List (String × RateEntry)
  | [], k, v => [(k, v)]
  | (k', v') :: rest, k, v =>
    if k' == k then (k, v) :: rest else (k', v') :: setRate rest k v

/-- Abstract rendering of `new Date().toISOString()` at instant `now`
(the claims never inspect the timestamp format). -/
def isoTimestamp (now : Nat) : String :=
  Nat.repr now

/-- The rate-limit bookkeeping of `createAnalyticsHandler` (lines
210-233): fetch or create the client record, reset it when the window
elapsed, increment, store. -/
def rateCheck (counts : List (String × RateEntry)) (clientIp : String)
    (now : Nat) : List (String × RateEntry) × RateEntry :=
  let old := (lookupRate counts clientIp).getD ⟨0, now + 60000⟩
  let cur := if now > old.resetAt then RateEntry.mk 1 (now + 60000)
             else RateEntry.mk (old.count + 1) old.resetAt
  (setRate counts clientIp cur, cur)

/-- The body-parsing and persisting tail of both analytics handlers:
build the event (action defaulting to `copy`, url falling back to the
referer, server-side timestamp), append it to storage, answer 200; a
body that failed to parse answers 500. -/
def analyticsSave (opts : AnalyticsHandlerOptionsR) (state : AnalyticsState)
    (req : AnalyticsRequest) (now : Nat) : AnalyticsState × HandlerResponse :=
  match req.body with
  | none =>
    (state,
     { status := 500, headers := [],
       body := .jsonError "Failed to track event" })
  | some b =>
    let event : AnalyticsEventR :=
      { action := jsOr b.action "copy",
        contentId := b.contentId,
        url := jsOrOpt b.url req.referer,
        timestamp := isoTimestamp now,
        metadata := b.metadata }
    ({ state with events := state.events ++ [event] },
     { status := 200,
       headers := [("Content-Type", "application/json")] ++
         (if opts.cors then [("Access-Control-Allow-Origin", "*")] else []),
       body := .jsonSuccess event })

/-- `createAnalyticsHandler` from `src/api/analytics-handler.ts` (lines
188-261) as one request step: CORS preflight, method check, optional
rate limiting (429 with `Retry-After` in whole seconds, rounded up),
then parse-and-persist. -/
def createAnalyticsHandler (opts : AnalyticsHandlerOptionsR)
    (state : AnalyticsState) (req : AnalyticsRequest) (now : Nat) :
    AnalyticsState × HandlerResponse :=
  if req.method == "OPTIONS" then
    (state,
     { status := 204,
       headers := [("Access-Control-Allow-Origin", "*"),
                   ("Access-Control-Allow-Methods", "POST, OPTIONS"),
                   ("Access-Control-Allow-Headers", "Content-Type")],
       body := .empty })
  else if !(req.method == "POST") then
    (state, { status := 405, headers := [], body := .text "Method Not Allowed" })
  else
    match opts.rateLimit with
    | some limit =>
      let clientIp := jsOr req.xForwardedFor "unknown"
      let rc := rateCheck state.requestCounts clientIp now
      let state1 := { state with requestCounts := rc.1 }
      if rc.2.count > limit then
        (state1,
         { status := 429,
           headers := [("Retry-After",
                        Nat.repr ((rc.2.resetAt - now + 999) / 1000))],
           body := .text "Rate limit exceeded" })
      else analyticsSave opts state1 req now
    | none => analyticsSave opts state req now

/-- `createAnalyticsPageHandler` from `src/api/analytics-handler.ts`
(lines 266-308): the Pages-Router variant — no preflight and no rate
limiting; a missing body still persists an all-default event (the field
reads are optional-chained). -/
def createAnalyticsPageHandler (opts : AnalyticsHandlerOptionsR)
    (state : AnalyticsState) (req : AnalyticsRequest) (now : Nat) :
    AnalyticsState × HandlerResponse :=
  if !(req.method == "POST") then
    (state, { status := 405, headers := [], body := .text "Method Not Allowed" })
  else
    let b := req.body.getD {}
    let event : AnalyticsEventR :=
      { action := jsOr b.action "copy",
        contentId := b.contentId,
        url := jsOrOpt b.url req.referer,
        timestamp := isoTimestamp now,
        metadata := b.metadata }
    ({ state with events := state.events ++ [event] },
     { status := 200,
       headers := if opts.cors then [("Access-Control-Allow-Origin", "*")] else [],
       body := .jsonSuccess event })

/-- **C9.** The markdown-by-slug handler answers 404 with plain-text
`Content not found` exactly when the caller-supplied lookup returns
null, and otherwise answers 200 with `text/markdown; charset=utf-8`
and the assembled markdown (the `markdown` field of the assembler's
output) as body. -/
theorem createMarkdownHandler_spec (options : MarkdownHandlerOptionsR)
    (slug : String) :
    ((createMarkdownHandler options slug).status = 404 ↔
      options.getContent slug = none) ∧
    (options.getContent slug = none →
      (createMarkdownHandler options slug).body = .text "Content not found" ∧
      ("Content-Type", "text/plain") ∈ (createMarkdownHandler options slug).headers) ∧
    (∀ content, options.getContent slug = some content →
      (createMarkdownHandler options slug).status = 200 ∧
      ("Content-Type", "text/markdown; charset=utf-8") ∈
        (createMarkdownHandler options slug).headers ∧
      (createMarkdownHandler options slug).body =
        .text (generateMarkdown content).markdown) := by
  rcases hg : options.getContent slug with _ | content
  · refine ⟨by simp [createMarkdownHandler, hg], fun _ => ?_, fun c hc => ?_⟩
    · exact ⟨by simp [createMarkdownHandler, hg], by simp [createMarkdownHandler, hg]⟩
    · cases hc
  · refine ⟨?_, fun hn => ?_, fun c hc => ?_⟩
    · simp [createMarkdownHandler, hg]
    · cases hn
    · injection hc with hc
      subst hc
      refine ⟨by simp [createMarkdownHandler, hg], ?_, ?_⟩
      · simp [createMarkdownHandler, hg]
      · simp [createMarkdownHandler, hg, generateMarkdownString]

/-- A concrete lookup table for the C9 witness. -/
def witnessLookup : MarkdownHandlerOptionsR :=
  { getContent := fun slug =>
      if slug == "hit" then some { title := "T", content := "body text" }
      else none }

/-- Witness for **C9**: the theorem applied to a concrete lookup at a
found and at a missing slug, its hypotheses discharged by computation. -/
theorem createMarkdownHandler_spec_witness :
    ((createMarkdownHandler witnessLookup "miss").body =
      .text "Content not found") ∧
    (createMarkdownHandler witnessLookup "hit").status = 200 :=
  ⟨((createMarkdownHandler_spec witnessLookup "miss").2.1 (by rfl)).1,
   ((createMarkdownHandler_spec witnessLookup "hit").2.2
      { title := "T", content := "body text" } (by rfl)).1⟩

/-- Sequential driver for the analytics handler (threading the
module-level state through successive requests). -/
def runAnalytics (opts : AnalyticsHandlerOptionsR)
    (reqs : List (AnalyticsRequest × Nat)) :
    AnalyticsState × List HandlerResponse :=
  reqs.foldl
    (fun acc rq =>
      ((createAnalyticsHandler opts acc.1 rq.1 rq.2).1,
       acc.2 ++ [(createAnalyticsHandler opts acc.1 rq.1 rq.2).2]))
    (⟨[], []⟩, [])

/-- **C8.** With `rateLimit = 2`, three valid POSTs from the same client
key within one window answer `200, 200, 429`, and the third carries a
strictly positive `Retry-After` (in seconds). -/
theorem analytics_rate_limit_sequence
    (opts : AnalyticsHandlerOptionsR) (req1 req2 req3 : AnalyticsRequest)
    (k : String) (t1 t2 t3 : Nat) (b1 b2 b3 : AnalyticsBody)
    (hrl : opts.rateLimit = some 2)
    (hm1 : req1.method = "POST") (hm2 : req2.method = "POST")
    (hm3 : req3.method = "POST")
    (hf1 : req1.xForwardedFor = some k) (hf2 : req2.xForwardedFor = some k)
    (hf3 : req3.xForwardedFor = some k)
    (hb1 : req1.body = some b1) (hb2 : req2.body = some b2)
    (hb3 : req3.body = some b3)
    (h12 : t1 ≤ t2) (h23 : t2 ≤ t3) (hwin : t3 < t1 + 60000) :
    ∃ (r1 r2 r3 : HandlerResponse) (v : Nat),
      (runAnalytics opts [(req1, t1), (req2, t2), (req3, t3)]).2 =
        [r1, r2, r3] ∧
      r1.status = 200 ∧ r2.status = 200 ∧ r3.status = 429 ∧
      r3.headers = [("Retry-After", Nat.repr v)] ∧ 0 < v := by
  have e1 : ¬(t1 > t1 + 60000) := by omega
  have e2 : ¬(t2 > t1 + 60000) := by omega
  have e3 : ¬(t3 > t1 + 60000) := by omega
  have c1 : ¬(1 > 2) := by omega
  have c2 : ¬(2 > 2) := by omega
  have c3 : 3 > 2 := by omega
  have hv : 0 < (t1 + 60000 - t3 + 999) / 1000 := by omega
  simp [runAnalytics, createAnalyticsHandler, analyticsSave, rateCheck,
    lookupRate, setRate, hm1, hm2, hm3, hrl, hf1, hf2, hf3, hb1, hb2, hb3,
    e1, e2, e3, c1, c2, c3]
  exact ⟨_, _, _, ⟨rfl, rfl, rfl⟩, rfl, rfl, rfl,
    (t1 + 60000 - t3 + 999) / 1000, rfl, hv⟩

/-- Witness for **C8**: a concrete three-request run. -/
theorem analytics_rate_limit_sequence_witness :
    ∃ (r1 r2 r3 : HandlerResponse) (v : Nat),
      (runAnalytics { rateLimit := some 2 }
        [({ method := "POST", xForwardedFor := some "1.2.3.4",
            body := some {} }, 5),
         ({ method := "POST", xForwardedFor := some "1.2.3.4",
            body := some {} }, 6),
         ({ method := "POST", xForwardedFor := some "1.2.3.4",
            body := some {} }, 7)]).2 = [r1, r2, r3] ∧
      r1.status = 200 ∧ r2.status = 200 ∧ r3.status = 429 ∧
      r3.headers = [("Retry-After", Nat.repr v)] ∧ 0 < v :=
  analytics_rate_limit_sequence { rateLimit := some 2 } _ _ _ "1.2.3.4" 5 6 7
    {} {} {} rfl rfl rfl rfl rfl rfl rfl rfl rfl rfl (by omega) (by omega)
    (by omega)

/-- **C10.** For every successfully parsed POST body, the analytics
handlers persist an event whose `action` is exactly the body's `action`
string whenever that string is truthy — with no validation against
`copy`/`view`/`download` — and `copy` whenever the field is missing or
falsy.  Stated for the App-Router handler (with rate limiting off so the
request reaches persistence) and for the Pages-Router handler. -/
theorem analytics_action_unvalidated
    (opts : AnalyticsHandlerOptionsR) (state : AnalyticsState)
    (req : AnalyticsRequest) (now : Nat) (b : AnalyticsBody)
    (hm : req.method = "POST") (hb : req.body = some b)
    (hrl : opts.rateLimit = none) :
    (∃ ev : AnalyticsEventR,
      (createAnalyticsHandler opts state req now).1.events =
        state.events ++ [ev] ∧
      (∀ a : String, b.action = some a → a ≠ "" → ev.action = a) ∧
      (b.action = none → ev.action = "copy") ∧
      (b.action = some "" → ev.action = "copy")) ∧
    (∃ ev : AnalyticsEventR,
      (createAnalyticsPageHandler opts state req now).1.events =
        state.events ++ [ev] ∧
      (∀ a : String, b.action = some a → a ≠ "" → ev.action = a) ∧
      (b.action = none → ev.action = "copy") ∧
      (b.action = some "" → ev.action = "copy")) := by
  constructor
  · refine
      ⟨{ action := jsOr b.action "copy", contentId := b.contentId,
         url := jsOrOpt b.url req.referer, timestamp := isoTimestamp now,
         metadata := b.metadata }, ?_, ?_, ?_, ?_⟩
    · simp [createAnalyticsHandler, hm, hrl, analyticsSave, hb]
    · intro a ha hna
      simp [jsOr, ha, hna]
    · intro ha
      simp [jsOr, ha]
    · intro ha
      simp [jsOr, ha]
  · refine
      ⟨{ action := jsOr b.action "copy", contentId := b.contentId,
         url := jsOrOpt b.url req.referer, timestamp := isoTimestamp now,
         metadata := b.metadata }, ?_, ?_, ?_, ?_⟩
    · simp [createAnalyticsPageHandler, hm, hb]
    · intro a ha hna
      simp [jsOr, ha, hna]
    · intro ha
      simp [jsOr, ha]
    · intro ha
      simp [jsOr, ha]

/-- Witness for **C10**: a body carrying the invalid action
`not-a-real-action` is persisted verbatim. -/
theorem analytics_action_unvalidated_witness :
    ∃ ev : AnalyticsEventR,
      (createAnalyticsHandler {} ⟨[], []⟩
        { method := "POST",
          body := some { action := some "not-a-real-action" } } 0).1.events =
        [ev] ∧
      (∀ a : String,
        ({ action := some "not-a-real-action" } : AnalyticsBody).action = some a →
        a ≠ "" → ev.action = a) ∧
      (({ action := some "not-a-real-action" } : AnalyticsBody).action = none →
        ev.action = "copy") ∧
      (({ action := some "not-a-real-action" } : AnalyticsBody).action = some "" →
        ev.action = "copy") :=
  (analytics_action_unvalidated {} ⟨[], []⟩
    { method := "POST", body := some { action := some "not-a-real-action" } }
    0 { action := some "not-a-real-action" } rfl rfl rfl).1

/-! ## HTML heading extraction (`src/utils/html-to-markdown.ts`,
`extractHeadings`)

The extractor builds
`<(h2|h3|h4)[^>]*(?:id=["']([^"']*)["'])?[^>]*>(.*?)<\/\1>` with the
`gi` flags and loops `exec`.  Backtracking analysis: the greedy leading
`[^>]*` runs to the first `>` after the tag name; there the optional
`id` group can only match the empty alternative, so whenever the lazy
`(.*?)` then reaches a same-line closing tag (path A) the match
succeeds with *no id captured*.  Only when path A fails does the engine
release characters from the `[^>]*` run, at which point the `id` group
(whose quoted capture may cross `>` and newlines) is tried at each
offset from right to left. -/

/-- `parseInt(c, 10)` on a single character; a non-digit gives `NaN`,
modelled as 0 (unreachable for the `h1`-`h6` tags of the claims). -/
def parseDigit (c : Char) : Nat :=
  if isDigitChar c then c.toNat - 48 else 0

/-- `parseInt(match[1].charAt(1), 10)`: the numeric suffix of the
matched tag. -/
def levelOfTag : List Char → Nat
  | _ :: d :: _ => parseDigit d
  | _ => 0

/-- The closing-tag literal `</tag>` (matched case-insensitively, as the
backreference `\1` is under the `i` flag). -/
def closeOf (tag : List Char) : List Char :=
  '<' :: '/' :: tag ++ ['>']

/-- The `id=["']([^"']*)["']` group tried at offset `a` inside the
attribute region, followed by the remaining `[^>]*>(.*?)</tag>`.
Returns the capture, the `(.*?)` capture and the length consumed within
the region. -/
def tryIdGroupAt (tag : List Char) (rest : List Char) (a : Nat) :
    Option (Option (List Char) × List Char × Nat) :=
  let t2 := rest.drop a
  if startsWithCI ['i', 'd', '='] t2 then
    match t2.drop 3 with
    | [] => none
    | q :: r1 =>
      if isQuoteCh q then
        let caplen := countLeading (fun c => !(isQuoteCh c)) r1
        match r1.drop caplen with
        | [] => none
        | _ :: r2 =>
          let b := countLeading (fun c => !(c == '>')) r2
          match r2.drop b with
          | [] => none
          | _ :: content0 =>
            match lazyClose false (closeOf tag) content0 with
            | none => none
            | some clen =>
              some (some (r1.take caplen), content0.take clen,
                a + 3 + 1 + caplen + 1 + b + 1 + clen + (tag.length + 3))
      else none
  else none

/-- Match the heading pattern for one tag alternative at the start of
`s`, following the engine's path order (path A first, then the id-group
offsets right-to-left).  Returns (id capture, content capture, total
match length). -/
def matchHeadingAt (tag : List Char) (s : List Char) :
    Option (Option (List Char) × List Char × Nat) :=
  if startsWithCI ('<' :: tag) s then
    let rest := s.drop (1 + tag.length)
    let g := countLeading (fun c => !(c == '>')) rest
    let pathA : Option (Option (List Char) × List Char × Nat) :=
      match rest.drop g with
      | [] => none
      | _ :: content0 =>
        match lazyClose false (closeOf tag) content0 with
        | none => none
        | some clen =>
          some (none, content0.take clen,
            1 + tag.length + g + 1 + clen + (tag.length + 3))
    match pathA with
    | some r => some r
    | none =>
      (descend (tryIdGroupAt tag rest) g).map
        (fun r => (r.1, r.2.1, 1 + tag.length + r.2.2))
  else none

/-- Try the tag alternatives in order (regex alternation) at the start
of `s`. -/
def tryTagsAt (tags : List (List Char)) (s : List Char) :
    Option (List Char × Option (List Char) × List Char × Nat) :=
  match tags with
  | [] => none
  | t :: ts =>
    match matchHeadingAt t s with
    | some r => some (t, r)
    | none => tryTagsAt ts s

/-- `match[3].replace(/<[^>]+>/g, '')` (total; the fallback branch is
dead by the C7 machinery). -/
def stripInnerTags (l : List Char) : List Char :=
  (applyPass findStripTag l).getD l

/-- The heading text: inner capture with tags stripped, then trimmed. -/
def headingText (inner : List Char) : String :=
  String.mk (trimEdge isJsSpace (stripInnerTags inner))

/-- The id: the capture if truthy (non-empty), else `heading-{index}`. -/
def headingIdOf (idc : Option (List Char)) (idx : Nat) : String :=
  match idc with
  | some cap =>
    if cap.isEmpty then "heading-" ++ Nat.repr idx else String.mk cap
  | none => "heading-" ++ Nat.repr idx

/-- The `exec` loop of `extractHeadings`: at each position try the
pattern; on a match emit a heading (incrementing the index) and resume
after it, otherwise advance one character. -/
def scanHeadings (tags : List (List Char)) : Nat → List Char → Nat → List TOCHeading
  | 0, _, _ => []
  | _ + 1, [], _ => []
  | f + 1, c :: cs, idx =>
    match tryTagsAt tags (c :: cs) with
    | some (t, idc, inner, len) =>
      ⟨headingIdOf idc idx, headingText inner, levelOfTag t, []⟩ ::
        scanHeadings tags f (List.drop len (c :: cs)) (idx + 1)
    | none => scanHeadings tags f cs idx

/-- `extractHeadings` from `src/utils/html-to-markdown.ts` (lines
308-331).  (`levels` entries are treated as literal alternatives; the
claims only use the standard `h1`-`h6` names, which contain no regex
metacharacters.) -/
def extractHeadings (html : String)
    (levels : List String := ["h2", "h3", "h4"]) : List TOCHeading :=
  scanHeadings (levels.map String.toList) (html.toList.length + 1) html.toList 0

/-! ### Well-formed heading elements

The amended C2 statement quantifies over sequences of well-formed
heading elements: a standard tag, an attribute run free of `>`, and
text free of `<` and newlines.  On such inputs path A always applies,
so the extractor's ids are positional regardless of any `id` attribute
in the attribute run. -/

/-- A heading element `<tag attrs>text</tag>`. -/
structure HeadElem where
  tag : List Char
  attrs : List Char
  text : List Char

/-- Render one heading element. -/
def renderHead (e : HeadElem) : List Char :=
  '<' :: (e.tag ++ (e.attrs ++ '>' :: (e.text ++ closeOf e.tag)))

/-- Render a sequence of heading elements. -/
def renderHeads : List HeadElem → List Char
  | [] => []
  | e :: es => renderHead e ++ renderHeads es

/-- The standard heading tag names. -/
def stdTags : List (List Char) :=
  [['h', '1'], ['h', '2'], ['h', '3'], ['h', '4'], ['h', '5'], ['h', '6']]

/-- Well-formedness of a heading element relative to the requested tag
list: its tag is requested, its attribute run contains no `>`, and its
text contains neither `<` nor a newline.  (The attribute run may freely
contain `id="..."` attributes.) -/
def WFHead (tags : List (List Char)) (e : HeadElem) : Prop :=
  e.tag ∈ tags ∧
  (∀ c ∈ e.attrs, (c == '>') = false) ∧
  (∀ c ∈ e.text, (c == '<') = false ∧ (c == '\n') = false)

/-- The headings the extractor produces on a well-formed element
sequence: positional ids, trimmed text, the tag's numeric level. -/
def expectedHeads : Nat → List HeadElem → List TOCHeading
  | _, [] => []
  | idx, e :: es =>
    ⟨"heading-" ++ Nat.repr idx, String.mk (trimEdge isJsSpace e.text),
      levelOfTag e.tag, []⟩ :: expectedHeads (idx + 1) es

/-- `Char.ofNat` inverts `toNat` below the surrogate range. -/
theorem toNat_ofNat_of_small (n : Nat) (h : n < 55296) :
    (Char.ofNat n).toNat = n := by
  rw [Char.ofNat, dif_pos (Or.inl h)]
  rfl

/-- `toLower` maps nothing new onto `<`. -/
theorem toLower_ne_lt (c : Char) (h : (c == '\x3c') = false) :
    ('\x3c'.toLower == c.toLower) = false := by
  have h0 : ('\x3c'.toLower) = '\x3c' := by decide
  rw [h0]
  simp only [beq_eq_false_iff_ne, ne_eq] at h ⊢
  intro heq
  simp only [Char.toLower] at heq
  by_cases hc : c.toNat ≥ 65 ∧ c.toNat ≤ 90
  · rw [if_pos hc] at heq
    have h2 := congrArg Char.toNat heq
    rw [toNat_ofNat_of_small (c.toNat + 32) (by omega)] at h2
    have h3 : ('\x3c').toNat = 60 := by decide
    omega
  · rw [if_neg hc] at heq
    exact h heq.symm

/-- Case-insensitive prefix test on an identical prefix. -/
theorem startsWithCI_append_self : ∀ (p r : List Char),
    startsWithCI p (p ++ r) = true
  | [], _ => rfl
  | c :: p, r => by
    simp only [List.cons_append, startsWithCI, beq_self_eq_true, Bool.true_and]
    exact startsWithCI_append_self p r

/-- Distinct standard tags reject each other's openings. -/
theorem startsWithCI_std_ne (u t : List Char) (hu : u ∈ stdTags)
    (ht : t ∈ stdTags) (hne : u ≠ t) (Q : List Char) :
    startsWithCI ('<' :: u) ('<' :: (t ++ Q)) = false := by
  simp only [stdTags, List.mem_cons, List.not_mem_nil, or_false] at hu ht
  rcases hu with rfl | rfl | rfl | rfl | rfl | rfl <;>
    rcases ht with rfl | rfl | rfl | rfl | rfl | rfl <;>
    first
      | exact absurd rfl hne
      | (simp only [List.cons_append, List.nil_append, startsWithCI]; decide)

/-- A failed opening fails the whole pattern. -/
theorem matchHeadingAt_none_of_startsFalse (u s : List Char)
    (h : startsWithCI ('<' :: u) s = false) :
    matchHeadingAt u s = none := by
  rw [matchHeadingAt, if_neg]
  simp [h]

/-- `countLeading` on a run followed by a stopper. -/
theorem countLeading_append_stop {p : Char → Bool} {l1 l2 : List Char}
    {x : Char} (h1 : ∀ c ∈ l1, p c = true) (hx : p x = false) :
    countLeading p (l1 ++ x :: l2) = l1.length := by
  unfold countLeading
  rw [takeWhile_append_all h1]
  simp [List.takeWhile_cons, hx]

/-- The lazy close search ignores clean text and stops at the close
literal. -/
theorem lazyClose_closeOf (m : Bool) (tag : List Char) :
    ∀ (text : List Char),
      (∀ c ∈ text, (c == '<') = false ∧ (c == '\n') = false) →
      ∀ (r : List Char),
        lazyClose m (closeOf tag) (text ++ (closeOf tag ++ r))
          = some text.length
  | [], _, r => by
    simp only [List.nil_append, List.length_nil]
    have h1 : startsWithCI (closeOf tag) (closeOf tag ++ r) = true :=
      startsWithCI_append_self _ _
    have h2 : closeOf tag ++ r
        = '<' :: ('/' :: (tag ++ ['>']) ++ r) := by
      simp [closeOf]
    rw [h2] at h1 ⊢
    rw [lazyClose, if_pos h1]
  | c :: text, h, r => by
    have hc := h c (by simp)
    have hrest : ∀ x ∈ text, (x == '<') = false ∧ (x == '\n') = false :=
      fun x hx => h x (by simp [hx])
    have hhead : startsWithCI (closeOf tag)
        (c :: (text ++ (closeOf tag ++ r))) = false := by
      simp only [closeOf, startsWithCI]
      rw [toLower_ne_lt c hc.1]
      rfl
    simp only [List.cons_append, List.length_cons]
    rw [lazyClose, if_neg (by simp [hhead]), if_neg (by simp [hc.2])]
    rw [lazyClose_closeOf m tag text hrest r]
    rfl

/-- Path A on a well-formed element: the greedy attribute run meets the
element's own `>`, the id group is skipped, and the lazy content
capture is exactly the element text. -/
theorem matchHeadingAt_render (t A X rest : List Char)
    (hA : ∀ c ∈ A, (c == '>') = false)
    (hX : ∀ c ∈ X, (c == '<') = false ∧ (c == '\n') = false) :
    matchHeadingAt t ('<' :: (t ++ (A ++ '>' :: (X ++ (closeOf t ++ rest)))))
      = some (none, X,
          1 + t.length + A.length + 1 + X.length + (t.length + 3)) := by
  have h1 : startsWithCI ('<' :: t)
      ('<' :: (t ++ (A ++ '>' :: (X ++ (closeOf t ++ rest))))) = true := by
    have h := startsWithCI_append_self ('<' :: t)
      (A ++ '>' :: (X ++ (closeOf t ++ rest)))
    simpa using h
  have h2 : ('<' :: (t ++ (A ++ '>' :: (X ++ (closeOf t ++ rest))))).drop
      (1 + t.length) = A ++ '>' :: (X ++ (closeOf t ++ rest)) := by
    rw [Nat.add_comm, List.drop_succ_cons, List.drop_left]
  have h3 : countLeading (fun c => !(c == '>'))
      (A ++ '>' :: (X ++ (closeOf t ++ rest))) = A.length := by
    apply countLeading_append_stop
    · intro c hc
      simp [hA c hc]
    · simp
  have h4 : (A ++ '>' :: (X ++ (closeOf t ++ rest))).drop A.length
      = '>' :: (X ++ (closeOf t ++ rest)) := List.drop_left A _
  have h5 : lazyClose false (closeOf t) (X ++ (closeOf t ++ rest))
      = some X.length := lazyClose_closeOf false t X hX rest
  have h6 : (X ++ (closeOf t ++ rest)).take X.length = X := List.take_left X _
  rw [matchHeadingAt, if_pos h1]
  simp only [h2, h3, h4, h5, h6]

/-- The alternation picks exactly the element's own tag. -/
theorem tryTagsAt_render (tags : List (List Char)) (t A X rest : List Char)
    (htags : ∀ u ∈ tags, u ∈ stdTags) (hmem : t ∈ tags)
    (hA : ∀ c ∈ A, (c == '>') = false)
    (hX : ∀ c ∈ X, (c == '<') = false ∧ (c == '\n') = false) :
    tryTagsAt tags ('<' :: (t ++ (A ++ '>' :: (X ++ (closeOf t ++ rest)))))
      = some (t, none, X,
          1 + t.length + A.length + 1 + X.length + (t.length + 3)) := by
  induction tags with
  | nil => cases hmem
  | cons u us ih =>
    rw [tryTagsAt]
    by_cases hu : u = t
    · subst hu
      rw [matchHeadingAt_render u A X rest hA hX]
    · rw [matchHeadingAt_none_of_startsFalse u _
        (startsWithCI_std_ne u t (htags u (by simp))
          (htags t hmem) hu _)]
      exact ih (fun v hv => htags v (by simp [hv]))
        ((List.mem_cons.mp hmem).resolve_left (fun h => hu h.symm))
/-- On `<`-free input the strip-tags matcher never fires. -/
theorem findStripTag_none (c : Char) (cs : List Char)
    (h : (c == '<') = false) : findStripTag (c :: cs) = none := by
  rw [findStripTag.eq_def]
  split
  · rename_i rest heq
    simp only [List.cons.injEq] at heq
    simp [heq.1] at h
  · rfl

/-- Scanning `<`-free input with the strip-tags matcher copies it. -/
theorem scanWith_stripTag_id :
    ∀ (f : Nat) (l : List Char), l.length < f →
      (∀ c ∈ l, (c == '<') = false) →
      scanWith findStripTag f l = some l := by
  intro f
  induction f with
  | zero => intro l hl _; omega
  | succ f ih =>
    intro l hl h
    cases l with
    | nil => simp [scanWith]
    | cons c cs =>
      rw [scanWith, findStripTag_none c cs (h c (by simp))]
      rw [ih cs (by simp at hl; omega) (fun x hx => h x (by simp [hx]))]
      rfl

/-- `match[3].replace(/<[^>]+>/g, '')` is the identity on `<`-free
content. -/
theorem stripInnerTags_id (l : List Char)
    (h : ∀ c ∈ l, (c == '<') = false) : stripInnerTags l = l := by
  unfold stripInnerTags applyPass
  rw [scanWith_stripTag_id (l.length + 1) l (by omega) h]
  rfl

/-- The exec loop over a well-formed element sequence emits one heading
per element, ids strictly by position. -/
theorem scanHeadings_render (tags : List (List Char))
    (htags : ∀ u ∈ tags, u ∈ stdTags) :
    ∀ (es : List HeadElem) (f idx : Nat), (renderHeads es).length < f →
      (∀ e ∈ es, WFHead tags e) →
      scanHeadings tags f (renderHeads es) idx = expectedHeads idx es := by
  intro es
  induction es with
  | nil =>
    intro f idx hf _
    cases f with
    | zero => omega
    | succ f => simp [renderHeads, scanHeadings, expectedHeads]
  | cons e es ih =>
    intro f idx hf hwf
    obtain ⟨hmem, hA, hX⟩ := hwf e (by simp)
    cases f with
    | zero =>
      simp only [renderHeads, renderHead, List.length_append,
        List.length_cons] at hf
      omega
    | succ f =>
      have hshape : renderHeads (e :: es)
          = '<' :: (e.tag ++ (e.attrs ++ '>' ::
              (e.text ++ (closeOf e.tag ++ renderHeads es)))) := by
        simp [renderHeads, renderHead, List.append_assoc]
      have hrec : scanHeadings tags f (renderHeads es) (idx + 1)
          = expectedHeads (idx + 1) es := by
        apply ih f (idx + 1)
        · have hlen : (renderHeads (e :: es)).length
              = (renderHead e).length + (renderHeads es).length := by
            simp [renderHeads]
          have hpos : 1 ≤ (renderHead e).length := by
            simp [renderHead]
          omega
        · intro x hx
          exact hwf x (by simp [hx])
      have hlen2 : (renderHead e).length
          = 1 + e.tag.length + e.attrs.length + 1 + e.text.length
            + (e.tag.length + 3) := by
        simp [renderHead, closeOf]
        omega
      have hdrop : List.drop
          (1 + e.tag.length + e.attrs.length + 1 + e.text.length
            + (e.tag.length + 3))
          ('<' :: (e.tag ++ (e.attrs ++ '>' ::
            (e.text ++ (closeOf e.tag ++ renderHeads es)))))
          = renderHeads es := by
        rw [← hshape, ← hlen2]
        show (renderHead e ++ renderHeads es).drop (renderHead e).length
          = renderHeads es
        exact List.drop_left _ _
      have htext : headingText e.text
          = String.mk (trimEdge isJsSpace e.text) := by
        unfold headingText
        rw [stripInnerTags_id e.text (fun c hc => (hX c hc).1)]
      rw [hshape, scanHeadings,
        tryTagsAt_render tags e.tag e.attrs e.text (renderHeads es)
          htags hmem hA hX]
      simp only [hdrop, htext, expectedHeads, hrec]
      rfl
instance (tags : List (List Char)) (e : HeadElem) :
    Decidable (WFHead tags e) := by
  unfold WFHead
  infer_instance

/-- A concrete well-formed element list: one heading *with* an
`id="intro"` attribute, one without. -/
def wC2Elems : List HeadElem :=
  [⟨"h2".toList, " id=\x22intro\x22".toList, "Hello World".toList⟩,
   ⟨"h3".toList, [], "Details".toList⟩]

/-- **C2** (amended).  For every sequence of well-formed heading
elements over standard requested tags, `extractHeadings` assigns ids
strictly by position — always `heading-{index}` — regardless of any
`id` attribute present in the element, and never applies slugify; the
text is the trimmed element text and the level the tag's digit.  (The
original claim — existing `id` attributes are carried over, otherwise a
slugified id with `heading-{index}` only for empty slugs — is refuted
by the counterexample theorem: the greedy `[^>]*` of the extraction
regex always skips the optional id group, and no slugify call exists on
this path.) -/
theorem extractHeadings_positional_ids (es : List HeadElem)
    (levels : List String)
    (hstd : ∀ l ∈ levels, l.toList ∈ stdTags)
    (hwf : ∀ e ∈ es, WFHead (levels.map String.toList) e) :
    extractHeadings (String.mk (renderHeads es)) levels
      = expectedHeads 0 es := by
  unfold extractHeadings
  show scanHeadings (levels.map String.toList)
    ((renderHeads es).length + 1) (renderHeads es) 0 = expectedHeads 0 es
  apply scanHeadings_render
  · intro u hu
    rcases List.mem_map.mp hu with ⟨l, hl, rfl⟩
    exact hstd l hl
  · omega
  · exact hwf

/-- **C2** (amended, witness): a two-element sequence in which the
first element carries `id="intro"`; both headings still get positional
ids. -/
theorem extractHeadings_positional_ids_witness :
    extractHeadings (String.mk (renderHeads wC2Elems)) ["h2", "h3"]
      = expectedHeads 0 wC2Elems :=
  extractHeadings_positional_ids wC2Elems ["h2", "h3"]
    (by decide) (by decide)

set_option maxRecDepth 10000 in
/-- **C2** (counterexample).  The spec says a heading's existing `id`
attribute is used, else a slugified id, with `heading-{index}` only for
empty slugs.  In the code, `<h2 id="intro">Hello World</h2>` yields id
`heading-0` (the `id="intro"` attribute is ignored), and
`<h2>Hello World</h2>` also yields `heading-0` even though the slug of
"Hello World" — per the very slugifier of the TOC hook — is the
non-empty "hello-world". -/
theorem extractHeadings_id_counterexample :
    extractHeadings "<h2 id=\x22intro\x22>Hello World</h2>" ["h2", "h3", "h4"]
      = [⟨"heading-0", "Hello World", 2, []⟩]
    ∧ extractHeadings "<h2>Hello World</h2>" ["h2", "h3", "h4"]
      = [⟨"heading-0", "Hello World", 2, []⟩]
    ∧ generateHeadingId "Hello World" 0 = "hello-world"
    ∧ "heading-0" ≠ "intro" ∧ "heading-0" ≠ "hello-world" :=
  ⟨rfl, rfl, by decide, by decide, by decide⟩
/-! ## Client-side DOM conversion (`convertNode`,
`src/utils/html-to-markdown.ts` lines 117-251)

The client strategy walks the parsed DOM tree.  `element.parentElement`
is embedded as an explicit `parent` argument carrying the lowercased
tag of the enclosing element (`none` at the root). -/

/-- `element.getAttribute(name)` (`null` for an absent attribute). -/
def getAttribute (name : String) (attrs : List (String × String)) :
    Option String :=
  (attrs.find? (fun p => p.1 == name)).map (fun p => p.2)

/-- The attribute list of a node (elements only). -/
def attrsOf : DomNode → List (String × String)
  | .text _ => []
  | .elem _ a _ => a

/-- The child list of a node (elements only). -/
def childrenOf : DomNode → List DomNode
  | .text _ => []
  | .elem _ _ c => c

mutual

/-- `node.textContent`: the concatenated text of all descendant text
nodes (for a text node, `|| ''` is the identity since absent text is
modelled as `""`). -/
def textContent : DomNode → String
  | .text s => s
  | .elem _ _ children => textContentL children

/-- `textContent` over a child list. -/
def textContentL : List DomNode → String
  | [] => ""
  | n :: ns => textContent n ++ textContentL ns

end

mutual

/-- `querySelectorAll`: every descendant element whose tag passes the
test, in document order. -/
def queryAllL (want : String → Bool) : List DomNode → List DomNode
  | [] => []
  | n :: ns => queryAllN want n ++ queryAllL want ns

/-- `querySelectorAll` below a single node. -/
def queryAllN (want : String → Bool) : DomNode → List DomNode
  | .text _ => []
  | .elem t a c =>
    (if want t then [DomNode.elem t a c] else []) ++ queryAllL want c

end

/-- `className.match(/language-(\w+)/)`: the first position where the
literal `language-` is followed by at least one word character; the
capture is the maximal word-character run there. -/
def langCapture : List Char → Option (List Char)
  | [] => none
  | c :: cs =>
    if startsWithCS "language-".toList (c :: cs) then
      let rest := (c :: cs).drop 9
      let w := countLeading isWordChar rest
      if 1 ≤ w then some (rest.take w) else langCapture cs
    else langCapture cs

/-- One table row: `| cell | cell |` with trimmed cell text
(`cell.textContent?.trim() || ''`; for element cells the text is never
`null`, and an all-whitespace cell trims to `''` either way). -/
def tableRowLine (cells : List DomNode) : String :=
  "| " ++ String.intercalate " | "
    (cells.map (fun cell => jsTrim (textContent cell))) ++ " |\n"

/-- The `| --- | --- |` separator under the header row. -/
def tableSepLine (cells : List DomNode) : String :=
  "| " ++ String.intercalate " | " (cells.map (fun _ => "---")) ++ " |\n"

/-- The `rows.forEach` loop of `convertTable`, carrying the row index
and the `headerProcessed` flag. -/
def tableRows : List DomNode → Nat → Bool → String
  | [], _, _ => ""
  | row :: rs, index, headerProcessed =>
    let cells := queryAllL (fun t => t == "th" || t == "td") (childrenOf row)
    let addSep := !headerProcessed &&
      (!(queryAllL (fun t => t == "th") (childrenOf row)).isEmpty
        || index == 0)
    tableRowLine cells ++ (if addSep then tableSepLine cells else "")
      ++ tableRows rs (index + 1) (headerProcessed || addSep)

/-- `convertTable` from `src/utils/html-to-markdown.ts` (lines
256-281). -/
def convertTable (table : DomNode) : String :=
  let rows := queryAllL (fun t => t == "tr") (childrenOf table)
  if rows.isEmpty then ""
  else "\n" ++ tableRows rows 0 false ++ "\n"

/-- `tagName.toLowerCase()`: `Char.toLower` over the characters (the
same function core `String.toLower` maps, written out so that it
evaluates by kernel reduction). -/
def strToLower (s : String) : String :=
  String.mk (s.toList.map Char.toLower)

/-- `opts.customHandlers?.[tagName]`. -/
def lookupHandler (hs : List (String × (DomNode → String)))
    (tag : String) : Option (DomNode → String) :=
  (hs.find? (fun p => p.1 == tag)).map (fun p => p.2)

mutual

/-- `convertNode` from `src/utils/html-to-markdown.ts` (lines 117-220):
text nodes verbatim, elements by custom handler, script/style
stripping, then the tag switch over the joined child content. -/
def convertNode (opts : HTMLToMarkdownOptions) (parent : Option String) :
    DomNode → String
  | .text s => s
  | .elem tag attrs children =>
    let tagName := strToLower tag
    match lookupHandler opts.customHandlers tagName with
    | some h => h (.elem tag attrs children)
    | none =>
      if opts.stripScripts && (tagName == "script" || tagName == "style")
      then ""
      else
        let childContent := convertChildren opts (some tagName) children
        if tagName == "h1" then "\n# " ++ jsTrim childContent ++ "\n"
        else if tagName == "h2" then "\n## " ++ jsTrim childContent ++ "\n"
        else if tagName == "h3" then "\n### " ++ jsTrim childContent ++ "\n"
        else if tagName == "h4" then "\n#### " ++ jsTrim childContent ++ "\n"
        else if tagName == "h5" then
          "\n##### " ++ jsTrim childContent ++ "\n"
        else if tagName == "h6" then
          "\n###### " ++ jsTrim childContent ++ "\n"
        else if tagName == "p" then "\n" ++ jsTrim childContent ++ "\n"
        else if tagName == "br" then
          if opts.preserveLineBreaks then "\n" else " "
        else if tagName == "strong" || tagName == "b" then
          "**" ++ childContent ++ "**"
        else if tagName == "em" || tagName == "i" then
          "*" ++ childContent ++ "*"
        else if tagName == "u" then "_" ++ childContent ++ "_"
        else if tagName == "s" || tagName == "strike" || tagName == "del"
        then "~~" ++ childContent ++ "~~"
        else if tagName == "a" then
          if opts.convertLinks then
            "[" ++ childContent ++ "]("
              ++ ((getAttribute "href" attrs).getD "") ++ ")"
          else childContent
        else if tagName == "img" then
          if opts.convertImages then
            "![" ++ ((getAttribute "alt" attrs).getD "") ++ "]("
              ++ ((getAttribute "src" attrs).getD "") ++ ")"
          else ""
        else if tagName == "ul" then "\n" ++ childContent ++ "\n"
        else if tagName == "ol" then "\n" ++ childContent ++ "\n"
        else if tagName == "li" then "- " ++ jsTrim childContent ++ "\n"
        else if tagName == "blockquote" then
          String.mk (bqMk childContent.toList)
        else if tagName == "pre" then
          let codeElement := (queryAllL (fun t => t == "code") children).head?
          let lang :=
            match codeElement with
            | none => ""
            | some ce =>
              match langCapture
                  ((getAttribute "class" (attrsOf ce)).getD "").toList with
              | none => ""
              | some l => String.mk l
          let code :=
            match codeElement with
            | none => childContent
            | some ce =>
              if textContent ce == "" then childContent else textContent ce
          "\n```" ++ lang ++ "\n" ++ jsTrim code ++ "\n```\n"
        else if tagName == "code" then
          if parent == some "pre" then childContent
          else "`" ++ childContent ++ "`"
        else if tagName == "hr" then "\n---\n"
        else if tagName == "table" then convertTable (.elem tag attrs children)
        else childContent

/-- `Array.from(element.childNodes).map(convertNode).join('')`. -/
def convertChildren (opts : HTMLToMarkdownOptions) (parent : Option String) :
    List DomNode → String
  | [] => ""
  | n :: ns => convertNode opts parent n ++ convertChildren opts parent ns

end

/-! ## Equivalence of the two conversion strategies (claim C6)

Generic machinery: a pass leaves a stretch of input untouched when its
matcher returns `none` at every position inside it, and fuel beyond the
input length is irrelevant. -/

/-- Fuel beyond the input length does not affect a scan whose matcher
always consumes. -/
theorem scanWith_fuel (find : List Char → Option (List Char × Nat))
    (hfind : ∀ s r n, find s = some (r, n) → 1 ≤ n) :
    ∀ (f g : Nat) (s : List Char), s.length < f → s.length < g →
      scanWith find f s = scanWith find g s := by
  intro f
  induction f with
  | zero => intro g s hf _; omega
  | succ f ih =>
    intro g s hf hg
    cases g with
    | zero => omega
    | succ g =>
      cases s with
      | nil => simp [scanWith]
      | cons c cs =>
        rcases hfd : find (c :: cs) with _ | ⟨rep, n⟩
        · simp only [scanWith, hfd]
          rw [ih g cs (by simp at hf; omega) (by simp at hg; omega)]
        · have hn := hfind _ _ _ hfd
          simp only [scanWith, hfd]
          rw [ih g (List.drop n (c :: cs)) (by simp at hf ⊢; omega)
            (by simp at hg ⊢; omega)]

/-- Copy one character past a position with no match. -/
theorem scanWith_skip_one (find : List Char → Option (List Char × Nat))
    (c : Char) (rest : List Char) (f : Nat)
    (h : find (c :: rest) = none) :
    scanWith find (f + 1) (c :: rest)
      = (scanWith find f rest).map (c :: ·) := by
  rw [scanWith, h]

/-- Copy a whole run of characters that fail a head gate of the
matcher. -/
theorem scanWith_skip_gated (find : List Char → Option (List Char × Nat))
    (P : Char → Bool)
    (hgate : ∀ c cs, P c = false → find (c :: cs) = none) :
    ∀ (run : List Char), (∀ c ∈ run, P c = false) →
    ∀ (f : Nat) (rest : List Char),
      scanWith find (run.length + f) (run ++ rest)
        = (scanWith find f rest).map (run ++ ·)
  | [], _, f, rest => by
    simp only [List.length_nil, Nat.zero_add, List.nil_append]
    cases hs : scanWith find f rest <;> simp
  | c :: run, h, f, rest => by
    have h0 : find (c :: (run ++ rest)) = none := hgate c _ (h c (by simp))
    have hlen : (c :: run).length + f = run.length + f + 1 := by
      simp; omega
    rw [List.cons_append, hlen, scanWith_skip_one find c _ _ h0,
      scanWith_skip_gated find P hgate run (fun x hx => h x (by simp [hx])) f rest,
      Option.map_map]
    rcases scanWith find f rest with _ | t <;> simp [Function.comp]

/-- A case-insensitive prefix test fails on any extension of a failing
short prefix. -/
theorem startsWithCI_append_false : ∀ (pat p3 : List Char),
    startsWithCI (pat.take p3.length) p3 = false →
    ∀ r, startsWithCI pat (p3 ++ r) = false := by
  intro pat
  induction pat with
  | nil => intro p3 h r; simp [startsWithCI] at h
  | cons a pat ih =>
    intro p3 h r
    cases p3 with
    | nil => simp [startsWithCI] at h
    | cons b p3 =>
      simp only [List.length_cons, List.take_succ_cons, startsWithCI,
        List.cons_append] at h ⊢
      cases hab : (a.toLower == b.toLower) with
      | false => simp [hab]
      | true =>
        rw [hab, Bool.true_and] at h
        rw [Bool.true_and]
        exact ih p3 h r
/-- A pass whose matcher is head-gated is the identity on gate-free
input. -/
theorem applyPass_gated_id (find : List Char → Option (List Char × Nat))
    (P : Char → Bool)
    (hgate : ∀ c cs, P c = false → find (c :: cs) = none)
    (l : List Char) (hl : ∀ c ∈ l, P c = false) :
    applyPass find l = some l := by
  unfold applyPass
  have h := scanWith_skip_gated find P hgate l hl 1 []
  simp only [List.append_nil] at h
  rw [show l.length + 1 = l.length + 1 from rfl, h]
  simp [scanWith]

/-! ### Segment strings

An intermediate string of the pass pipeline over single-level block
input is a concatenation of segments: unconverted raw blocks and
already-converted (`<`-free) output stretches. -/

/-- One segment of an intermediate pipeline string. -/
inductive Seg where
  | raw (e : HeadElem)
  | done (d : List Char)

/-- The characters of a segment. -/
def renderSeg : Seg → List Char
  | .raw e => renderHead e
  | .done d => d

/-- The characters of a segment list. -/
def renderSegs : List Seg → List Char
  | [] => []
  | s :: ss => renderSeg s ++ renderSegs ss

/-- The action of one pass on one segment, relative to a precondition
`P` on the text to the right: consuming `(renderSeg s).length`
characters of input and fuel turns `s` into `step s`. -/
def SegAct (P : List Char → Prop)
    (find : List Char → Option (List Char × Nat)) (step : Seg → Seg)
    (s : Seg) : Prop :=
  ∀ (f : Nat) (rest : List Char), P rest → rest.length < f →
    scanWith find ((renderSeg s).length + f) (renderSeg s ++ rest)
      = (scanWith find f rest).map (renderSeg (step s) ++ ·)

/-- Run a pass across a segment list, segment by segment. -/
theorem scanWith_renderSegs (P : List Char → Prop)
    (find : List Char → Option (List Char × Nat)) (step : Seg → Seg) :
    ∀ (segs : List Seg), (∀ s ∈ segs, SegAct P find step s) →
      (∀ tail : List Seg, tail <:+ segs → P (renderSegs tail)) →
      ∀ f : Nat, (renderSegs segs).length < f →
        scanWith find f (renderSegs segs)
          = some (renderSegs (segs.map step))
  | [], _, _, f, hf => by
    cases f with
    | zero => omega
    | succ f => simp [renderSegs, scanWith]
  | s :: ss, hact, hP, f, hf => by
    have hlen : (renderSegs (s :: ss)).length
        = (renderSeg s).length + (renderSegs ss).length := by
      simp [renderSegs]
    have hf2 : (renderSegs ss).length < f - (renderSeg s).length := by omega
    have hsplit : f = (renderSeg s).length + (f - (renderSeg s).length) := by
      omega
    rw [show renderSegs (s :: ss) = renderSeg s ++ renderSegs ss from rfl,
      hsplit,
      hact s (by simp) (f - (renderSeg s).length) (renderSegs ss)
        (hP ss ⟨[s], rfl⟩) hf2,
      scanWith_renderSegs P find step ss
        (fun x hx => hact x (by simp [hx]))
        (fun tail ht => hP tail (ht.trans ⟨[s], rfl⟩))
        (f - (renderSeg s).length) hf2]
    rfl

/-- `applyPass` over a segment string. -/
theorem applyPass_renderSegs (P : List Char → Prop)
    (find : List Char → Option (List Char × Nat)) (step : Seg → Seg)
    (segs : List Seg) (hact : ∀ s ∈ segs, SegAct P find step s)
    (hP : ∀ tail : List Seg, tail <:+ segs → P (renderSegs tail)) :
    applyPass find (renderSegs segs) = some (renderSegs (segs.map step)) :=
  scanWith_renderSegs P find step segs hact hP _ (by omega)
/-- Skip an entire raw block for a matcher that is `<`-head-gated and
rejects both the block's opening and its closing tag. -/
theorem scanWith_skip_raw (find : List Char → Option (List Char × Nat))
    (hgate : ∀ c cs, (c == '<') = false → find (c :: cs) = none)
    (e : HeadElem)
    (htag : ∀ c ∈ e.tag, (c == '<') = false)
    (hattrs : ∀ c ∈ e.attrs, (c == '<') = false)
    (htext : ∀ c ∈ e.text, (c == '<') = false)
    (hopen : ∀ r, find ('<' :: (e.tag ++ (e.attrs ++ '>' ::
      (e.text ++ (closeOf e.tag ++ r))))) = none)
    (hclose : ∀ r, find ('<' :: ('/' :: (e.tag ++ ('>' :: r)))) = none) :
    ∀ (f : Nat) (rest : List Char),
      scanWith find ((renderHead e).length + f) (renderHead e ++ rest)
        = (scanWith find f rest).map (renderHead e ++ ·) := by
  intro f rest
  set M1 : List Char := e.tag ++ e.attrs ++ '>' :: e.text with hM1
  set M2 : List Char := '/' :: e.tag ++ ['>'] with hM2
  have hM1ok : ∀ c ∈ M1, (c == '<') = false := by
    intro c hc
    rw [hM1] at hc
    simp only [List.append_assoc, List.mem_append, List.mem_cons] at hc
    rcases hc with h | h | rfl | h
    · exact htag c h
    · exact hattrs c h
    · decide
    · exact htext c h
  have hM2ok : ∀ c ∈ M2, (c == '<') = false := by
    intro c hc
    rw [hM2] at hc
    simp only [List.cons_append, List.mem_cons, List.mem_append,
      List.mem_singleton, List.not_mem_nil, or_false] at hc
    rcases hc with rfl | h | rfl
    · decide
    · exact htag c h
    · decide
  have hshape : renderHead e ++ rest
      = '<' :: (M1 ++ ('<' :: (M2 ++ rest))) := by
    simp [renderHead, closeOf, hM1, hM2]
  have hlen : (renderHead e).length + f
      = M1.length + (M2.length + f + 1) + 1 := by
    simp [renderHead, closeOf, hM1, hM2]
    omega
  have step4 : scanWith find (M2.length + f) (M2 ++ rest)
      = (scanWith find f rest).map (M2 ++ ·) :=
    scanWith_skip_gated find (fun c => c == '<')
      (fun c cs hc => hgate c cs hc) M2 hM2ok f rest
  have hcl : find ('<' :: (M2 ++ rest)) = none := by
    have h := hclose rest
    have : '<' :: (M2 ++ rest) = '<' :: ('/' :: (e.tag ++ ('>' :: rest))) := by
      simp [hM2]
    rw [this]
    exact h
  have step3 : scanWith find (M2.length + f + 1) ('<' :: (M2 ++ rest))
      = ((scanWith find f rest).map (M2 ++ ·)).map ('<' :: ·) := by
    rw [scanWith_skip_one find '<' (M2 ++ rest) (M2.length + f) hcl, step4]
  have step2 : scanWith find (M1.length + (M2.length + f + 1))
      (M1 ++ ('<' :: (M2 ++ rest)))
      = (((scanWith find f rest).map (M2 ++ ·)).map ('<' :: ·)).map
          (M1 ++ ·) := by
    rw [scanWith_skip_gated find (fun c => c == '<')
      (fun c cs hc => hgate c cs hc) M1 hM1ok (M2.length + f + 1)
      ('<' :: (M2 ++ rest)), step3]
  have hop : find ('<' :: (M1 ++ ('<' :: (M2 ++ rest)))) = none := by
    have h := hopen rest
    have heq : '<' :: (M1 ++ ('<' :: (M2 ++ rest)))
        = '<' :: (e.tag ++ (e.attrs ++ '>' ::
            (e.text ++ (closeOf e.tag ++ rest)))) := by
      simp [hM1, hM2, closeOf]
    rw [heq]
    exact h
  rw [hshape, hlen,
    scanWith_skip_one find '<' (M1 ++ ('<' :: (M2 ++ rest)))
      (M1.length + (M2.length + f + 1)) hop,
    step2]
  rcases scanWith find f rest with _ | t
  · rfl
  · simp [hM1, hM2, renderHead, closeOf]
/-! ### Head gates and opening rejections of the individual matchers -/

/-- A `<`-headed case-insensitive pattern fails on a non-`<` head. -/
theorem startsWithCI_lt_gate (pat : List Char) (c : Char) (cs : List Char)
    (h : (c == '<') = false) :
    startsWithCI ('<' :: pat) (c :: cs) = false := by
  have h0 : ('\x3c'.toLower == c.toLower) = false := toLower_ne_lt c h
  have h1 : ('\x3c'.toLower) = '\x3c' := by decide
  rw [h1] at h0
  simp [startsWithCI, h1, h0]

/-- `findBlockStrip` without its opening literal. -/
theorem findBlockStrip_no (tag s : List Char)
    (h : startsWithCI ('<' :: tag) s = false) :
    findBlockStrip tag s = none := by
  rw [findBlockStrip, if_neg]
  simp [h]

/-- `findTagPair` without its opening literal. -/
theorem findTagPair_no (tag : List Char) (m : Bool)
    (mk : List Char → List Char) (s : List Char)
    (h : startsWithCI ('<' :: tag) s = false) :
    findTagPair tag m mk s = none := by
  rw [findTagPair, if_neg]
  simp [h]

/-- `findOpenTag` without its opening literal. -/
theorem findOpenTag_no (tag rep s : List Char)
    (h : startsWithCI ('<' :: tag) s = false) :
    findOpenTag tag rep s = none := by
  rw [findOpenTag, if_neg]
  simp [h]

/-- `findLiteralCI` without its literal. -/
theorem findLiteralCI_no (pat rep s : List Char)
    (h : startsWithCI pat s = false) :
    findLiteralCI pat rep s = none := by
  rw [findLiteralCI, if_neg]
  simp [h]

/-- `findLink` without `<a`. -/
theorem findLink_no (s : List Char)
    (h : startsWithCI ['<', 'a'] s = false) :
    findLink s = none := by
  rw [findLink, if_neg]
  simp [h]

/-- `findImg` without `<img`. -/
theorem findImg_no (first second : List Char)
    (mk : List Char → List Char → List Char) (s : List Char)
    (h : startsWithCI ['<', 'i', 'm', 'g'] s = false) :
    findImg first second mk s = none := by
  rw [findImg, if_neg]
  simp [h]

/-- `findImgSrcOnly` without `<img`. -/
theorem findImgSrcOnly_no (s : List Char)
    (h : startsWithCI ['<', 'i', 'm', 'g'] s = false) :
    findImgSrcOnly s = none := by
  rw [findImgSrcOnly, if_neg]
  simp [h]

/-- `findPreCode` without `<pre`. -/
theorem findPreCode_no (s : List Char)
    (h : startsWithCI ['<', 'p', 'r', 'e'] s = false) :
    findPreCode s = none := by
  rw [findPreCode, if_neg]
  simp [h]

/-- `findBr` without `<br`. -/
theorem findBr_no (s : List Char)
    (h : startsWithCI ['<', 'b', 'r'] s = false) :
    findBr s = none := by
  rw [findBr, if_neg]
  simp [h]

/-- `findLiteral` (case-sensitive) head gate for `&`-headed patterns. -/
theorem findLiteral_amp_gate (pat rep : List Char) (c : Char)
    (cs : List Char) (h : (c == '&') = false) :
    findLiteral ('&' :: pat) rep (c :: cs) = none := by
  have h2 : ('&' == c) = false := by
    simp only [beq_eq_false_iff_ne, ne_eq] at h ⊢
    exact fun hh => h hh.symm
  rw [findLiteral, if_neg]
  simp [startsWithCS, h2]

/-- `findEntityDec` head gate. -/
theorem findEntityDec_gate (c : Char) (cs : List Char)
    (h : (c == '&') = false) : findEntityDec (c :: cs) = none := by
  rw [findEntityDec.eq_def]
  split
  · rename_i rest heq
    simp only [List.cons.injEq] at heq
    simp [heq.1] at h
  · rfl

/-- `findEntityHex` head gate. -/
theorem findEntityHex_gate (c : Char) (cs : List Char)
    (h : (c == '&') = false) : findEntityHex (c :: cs) = none := by
  rw [findEntityHex.eq_def]
  split
  · rename_i x rest heq
    simp only [List.cons.injEq] at heq
    simp [heq.1] at h
  · rfl

/-- `findNl3` head gate. -/
theorem findNl3_gate (c : Char) (cs : List Char)
    (h : (c == '\n') = false) : findNl3 (c :: cs) = none := by
  simp [findNl3, countLeading, List.takeWhile_cons, h]
/-! ### Well-formed single-level blocks -/

/-- The single-level block tags of the amended C6 statement: paragraphs
and the six heading levels. -/
def blockTags : List (List Char) := ['p'] :: stdTags

/-- A well-formed single-level block `<tag attrs>text</tag>`: a `p` or
`h1`-`h6` tag; an attribute run that is empty or starts with a space
(as any serialized attribute list does) and contains neither `<` nor
`>`; and nonempty text free of `<`, `&` and newlines. -/
def WFBlock (e : HeadElem) : Prop :=
  e.tag ∈ blockTags ∧
  (e.attrs = [] ∨ e.attrs.head? = some ' ') ∧
  (∀ c ∈ e.attrs, (c == '<') = false ∧ (c == '>') = false) ∧
  e.text ≠ [] ∧
  (∀ c ∈ e.text,
    (c == '<') = false ∧ (c == '&') = false ∧ (c == '\n') = false)

instance (e : HeadElem) : Decidable (WFBlock e) := by
  unfold WFBlock
  infer_instance

/-- A pattern that mismatches the first characters rejects a block
opening, whatever the attributes are. -/
theorem startsWithCI_open_false (pat : List Char) (e : HeadElem)
    (hhead : e.attrs = [] ∨ e.attrs.head? = some ' ')
    (h1 : startsWithCI (pat.take (e.tag.length + 2))
      ('<' :: (e.tag ++ ['>'])) = false)
    (h2 : startsWithCI (pat.take (e.tag.length + 2))
      ('<' :: (e.tag ++ [' '])) = false) :
    ∀ R, startsWithCI pat ('<' :: (e.tag ++ (e.attrs ++ '>' :: R)))
      = false := by
  intro R
  rcases hhead with h | h
  · have hsh : '<' :: (e.tag ++ (e.attrs ++ '>' :: R))
        = ('<' :: (e.tag ++ ['>'])) ++ R := by
      rw [h]; simp
    rw [hsh]
    have hl : ('<' :: (e.tag ++ ['>'])).length = e.tag.length + 2 := by
      simp
    apply startsWithCI_append_false
    rw [hl]
    exact h1
  · rcases hA : e.attrs with _ | ⟨a, as⟩
    · rw [hA] at h
      simp at h
    · rw [hA] at h
      simp only [List.head?_cons, Option.some.injEq] at h
      subst h
      have hsh : '<' :: (e.tag ++ (' ' :: as ++ '>' :: R))
          = ('<' :: (e.tag ++ [' '])) ++ (as ++ '>' :: R) := by
        simp
      rw [hsh]
      have hl : ('<' :: (e.tag ++ [' '])).length = e.tag.length + 2 := by
        simp
      apply startsWithCI_append_false
      rw [hl]
      exact h2

/-- A pattern that mismatches the first characters rejects a block
closing. -/
theorem startsWithCI_close_false (pat : List Char) (tag : List Char)
    (h : startsWithCI (pat.take (tag.length + 3))
      ('<' :: ('/' :: (tag ++ ['>']))) = false) :
    ∀ R, startsWithCI pat ('<' :: ('/' :: (tag ++ ('>' :: R)))) = false := by
  intro R
  have hsh : '<' :: ('/' :: (tag ++ ('>' :: R)))
      = ('<' :: ('/' :: (tag ++ ['>']))) ++ R := by simp
  rw [hsh]
  have hl : ('<' :: ('/' :: (tag ++ ['>']))).length = tag.length + 3 := by
    simp
  apply startsWithCI_append_false
  rw [hl]
  exact h

/-- `findCharIdx` over a failing run followed by a hit. -/
theorem findCharIdx_append {p : Char → Bool} :
    ∀ {l1 : List Char} {x : Char} {l2 : List Char},
      (∀ c ∈ l1, p c = false) → p x = true →
      findCharIdx p (l1 ++ x :: l2) = some l1.length
  | [], x, l2, _, hx => by simp [findCharIdx, hx]
  | c :: l1, x, l2, h, hx => by
    have hc := h c (by simp)
    rw [List.cons_append, findCharIdx, if_neg (by simp [hc]),
      findCharIdx_append (fun y hy => h y (by simp [hy])) hx]
    rfl
/-- A converting tag-pair pass on a well-formed block of its own tag:
it matches exactly the block. -/
theorem findTagPair_render (τ : List Char) (m : Bool)
    (mk : List Char → List Char) (A X rest : List Char)
    (hA : ∀ c ∈ A, (c == '>') = false)
    (hX : ∀ c ∈ X, (c == '<') = false ∧ (c == '\n') = false) :
    findTagPair τ m mk ('<' :: (τ ++ (A ++ '>' :: (X ++ (closeOf τ ++ rest)))))
      = some (mk X,
          1 + τ.length + A.length + 1 + X.length + (τ.length + 3)) := by
  have h1 : startsWithCI ('<' :: τ)
      ('<' :: (τ ++ (A ++ '>' :: (X ++ (closeOf τ ++ rest))))) = true := by
    have h := startsWithCI_append_self ('<' :: τ)
      (A ++ '>' :: (X ++ (closeOf τ ++ rest)))
    simpa using h
  have h2 : ('<' :: (τ ++ (A ++ '>' :: (X ++ (closeOf τ ++ rest))))).drop
      (1 + τ.length) = A ++ '>' :: (X ++ (closeOf τ ++ rest)) := by
    rw [Nat.add_comm, List.drop_succ_cons, List.drop_left]
  have h3 : findCharIdx isGt (A ++ '>' :: (X ++ (closeOf τ ++ rest)))
      = some A.length :=
    findCharIdx_append (fun c hc => by simp [isGt, hA c hc]) (by simp [isGt])
  have h4 : (A ++ '>' :: (X ++ (closeOf τ ++ rest))).drop (A.length + 1)
      = X ++ (closeOf τ ++ rest) := by
    rw [show A ++ '>' :: (X ++ (closeOf τ ++ rest))
        = (A ++ ['>']) ++ (X ++ (closeOf τ ++ rest)) from by simp,
      show A.length + 1 = (A ++ ['>']).length from by simp,
      List.drop_left]
  have h5 : lazyClose m ('<' :: '/' :: τ ++ ['>']) (X ++ (closeOf τ ++ rest))
      = some X.length := lazyClose_closeOf m τ X hX rest
  have h6 : (X ++ (closeOf τ ++ rest)).take X.length = X := List.take_left X _
  rw [findTagPair, if_pos h1]
  simp only [h2, h3, h4, h5, h6]

/-- The converted characters of a block have no `<`, `&` or newline
inside the surrounding blank lines. -/
def DoneOK (d : List Char) : Prop :=
  ∃ inner, d = '\n' :: inner ++ ['\n'] ∧ inner ≠ [] ∧
    ∀ c ∈ inner,
      (c == '<') = false ∧ (c == '&') = false ∧ (c == '\n') = false

/-- Character-level consequences of `DoneOK`. -/
theorem DoneOK.chars {d : List Char} (hd : DoneOK d) :
    ∀ c ∈ d, (c == '<') = false ∧ (c == '&') = false := by
  obtain ⟨inner, rfl, _, hin⟩ := hd
  intro c hc
  simp only [List.cons_append, List.mem_cons, List.mem_append,
    List.mem_singleton, List.not_mem_nil, or_false] at hc
  rcases hc with rfl | h | rfl
  · exact ⟨by decide, by decide⟩
  · exact ⟨(hin c h).1, (hin c h).2.1⟩
  · exact ⟨by decide, by decide⟩

/-- Block tags contain no `<`. -/
theorem blockTag_chars {t : List Char} (ht : t ∈ blockTags) :
    ∀ c ∈ t, (c == '<') = false := by
  simp only [blockTags, stdTags, List.mem_cons, List.not_mem_nil,
    or_false] at ht
  rcases ht with rfl | rfl | rfl | rfl | rfl | rfl | rfl <;> decide

/-- The segment action of one converting tag-pair pass. -/
def stepTag (τ : List Char) (mk : List Char → List Char) : Seg → Seg
  | .raw e => if e.tag = τ then .done (mk e.text) else .raw e
  | .done d => .done d

/-- A no-op pass skips a `DoneOK` segment (any `<`-head-gated
matcher). -/
theorem segAct_done (find : List Char → Option (List Char × Nat))
    (hgate : ∀ c cs, (c == '<') = false → find (c :: cs) = none)
    (step : Seg → Seg) (hstep : ∀ d, step (.done d) = .done d)
    (d : List Char) (hd : DoneOK d) :
    SegAct (fun _ => True) find step (.done d) := by
  intro f rest _ _
  rw [hstep]
  exact scanWith_skip_gated find (fun c => c == '<') hgate d
    (fun c hc => (hd.chars c hc).1) f rest

/-- A no-op pass skips a raw block it rejects. -/
theorem segAct_raw_skip (find : List Char → Option (List Char × Nat))
    (hgate : ∀ c cs, (c == '<') = false → find (c :: cs) = none)
    (e : HeadElem) (hwf : WFBlock e)
    (hopen : ∀ r, find ('<' :: (e.tag ++ (e.attrs ++ '>' ::
      (e.text ++ (closeOf e.tag ++ r))))) = none)
    (hclose : ∀ r, find ('<' :: ('/' :: (e.tag ++ ('>' :: r)))) = none) :
    SegAct (fun _ => True) find (fun s => s) (.raw e) := by
  intro f rest _ _
  exact scanWith_skip_raw find hgate e (blockTag_chars hwf.1)
    (fun c hc => (hwf.2.2.1 c hc).1)
    (fun c hc => (hwf.2.2.2.2 c hc).1) hopen hclose f rest

/-- A converting tag-pair pass consumes a raw block of its own tag. -/
theorem segAct_tag_match (τ : List Char) (m : Bool)
    (mk : List Char → List Char) (e : HeadElem) (hwf : WFBlock e)
    (heq : e.tag = τ) :
    SegAct (fun _ => True) (findTagPair τ m mk) (stepTag τ mk) (.raw e) := by
  intro f rest _ hrest
  obtain ⟨htags, hhead, hattrs, htext0, htext⟩ := hwf
  subst heq
  have hsh : renderHead e ++ rest
      = '<' :: (e.tag ++ (e.attrs ++ '>' ::
          (e.text ++ (closeOf e.tag ++ rest)))) := by
    simp [renderHead, List.append_assoc]
  have hlen : (renderHead e).length
      = 1 + e.tag.length + e.attrs.length + 1 + e.text.length
        + (e.tag.length + 3) := by
    simp [renderHead, closeOf]
    omega
  have hfind : findTagPair e.tag m mk ('<' :: (e.tag ++ (e.attrs ++ '>' ::
      (e.text ++ (closeOf e.tag ++ rest)))))
      = some (mk e.text, (renderHead e).length) := by
    rw [findTagPair_render e.tag m mk e.attrs e.text rest
      (fun c hc => (hattrs c hc).2)
      (fun c hc => ⟨(htext c hc).1, (htext c hc).2.2⟩), hlen]
  have hdrop : List.drop (renderHead e).length
      ('<' :: (e.tag ++ (e.attrs ++ '>' ::
        (e.text ++ (closeOf e.tag ++ rest))))) = rest := by
    rw [← hsh]
    exact List.drop_left _ _
  have hpos1 : 1 ≤ (renderHead e).length := by simp [renderHead]
  have hfuel : (renderSeg (Seg.raw e)).length + f
      = ((renderHead e).length - 1 + f) + 1 := by
    simp only [renderSeg]
    omega
  show scanWith (findTagPair e.tag m mk) ((renderSeg (Seg.raw e)).length + f)
      (renderHead e ++ rest) = _
  rw [hfuel, hsh, scanWith, hfind]
  simp only [hdrop]
  rw [scanWith_fuel (findTagPair e.tag m mk)
    (findTagPair_pos e.tag m mk) ((renderHead e).length - 1 + f) f rest
    (by omega) hrest]
  simp [stepTag, renderSeg]
set_option maxRecDepth 10000 in
/-- **C6** (counterexample).  The claim says the two conversion
strategies give entity-decoded Markdown with equal word counts for
every HTML input built from the common tag subset.  The paragraph
`<p class="a >b c">t</p>` uses only `p`, yet the DOM strategy converts
its tree to `"\nt\n"` (1 word) while the pattern strategy — whose
`<p[^>]*>` cannot cross the `>` inside the attribute value — leaves
`"b c\">t"` (2 words after stripping): the word counts differ. -/
theorem strategies_word_count_divergence :
    countWords (decodeHTMLEntities (convertNode defaultOptions none
      (.elem "body" [] [.elem "p" [("class", "a >b c")] [.text "t"]]))) = 1
    ∧ countWords (decodeHTMLEntities
        (serverSideConvert "<p class=\"a >b c\">t</p>" defaultOptions)) = 2
    ∧ convertNode defaultOptions none
        (.elem "body" [] [.elem "p" [("class", "a >b c")] [.text "t"]])
        = "\nt\n"
    ∧ serverSideConvert "<p class=\"a >b c\">t</p>" defaultOptions
        = "b c\">t" :=
  ⟨by decide, by decide, by decide, by decide⟩
end NextLlmReady
